import Mathlib

/-!
Verification of the async-tftp-rs TFTP server against its natural-language
specification.

The development shallowly embeds the packet codec of `src/packet.rs` /
`src/parse.rs` (byte strings are `List Nat`, machine integers are `Nat`
with explicit bounds, fallible parsing returns `Option`), the option
negotiation and protocol engines of `src/server/read_req.rs` and
`src/server/write_req.rs` (UDP interaction is an explicit environment of
arrival windows, async reads are an explicit chunk stream), and the
dispatcher of `src/server/server.rs` (a step function on dispatcher
state).  `str::from_utf8` validation is not modelled: strings are kept as
raw byte lists throughout, which is faithful on every input the theorems
below quantify over (encoded packets and NUL-terminated pair streams).
-/

/-! ## Byte-level helpers (nom combinators used by src/packet.rs) -/

/-- ASCII lower-casing, used by nom's `tag_no_case`. -/
def asciiLower (c : Nat) : Nat := if 65 ≤ c ∧ c ≤ 90 then c + 32 else c

/-- nom `tag_no_case`: consume `tag` from the input, comparing ASCII
case-insensitively; return the residual input. -/
def tagNoCase : List Nat → List Nat → Option (List Nat)
  | [], input => some input
  | _ :: _, [] => none
  | t :: ts, c :: cs =>
    if asciiLower c = asciiLower t then tagNoCase ts cs else none

/-- `nul_str` of src/packet.rs: `take_till(\0)` followed by `tag(\0)`;
returns the bytes before the NUL and the residual after it. -/
def nul_str : List Nat → Option (List Nat × List Nat)
  | [] => none
  | 0 :: rest => some ([], rest)
  | c :: rest =>
    match nul_str rest with
    | some (s, r) => some (c :: s, r)
    | none => none

/-- Big-endian 16-bit encoding (`put_u16_be`); the argument is a `u16`. -/
def be16 (n : Nat) : List Nat := [n / 256 % 256, n % 256]

/-- nom `be_u16`: read two bytes as a big-endian 16-bit integer. -/
def be_u16 : List Nat → Option (Nat × List Nat)
  | a :: b :: rest => some (a * 256 + b, rest)
  | _ => none

/-! ## Decimal strings (`to_string` and `uN::from_str`) -/

/-- Is the byte an ASCII decimal digit? -/
def isDigitByte (c : Nat) : Bool := 48 ≤ c && c ≤ 57

/-- Value of a digit byte string (most significant first). -/
def digitsVal (s : List Nat) : Nat := s.foldl (fun a c => a * 10 + (c - 48)) 0

/-- Decimal ASCII encoding of a natural number (`n.to_string()`). -/
def decBytes (n : Nat) : List Nat :=
  if _h : n < 10 then [n + 48]
  else decBytes (n / 10) ++ [n % 10 + 48]
termination_by n
decreasing_by exact Nat.div_lt_self (by omega) (by omega)

/-- Rust `uN::from_str` on a byte string: an optional leading `+`,
then a non-empty run of digits whose value fits the type (`bound` is
`2^N`); anything else is a parse error. -/
def uintFromStr (bound : Nat) (s : List Nat) : Option Nat :=
  let ds := match s with | 43 :: rest => rest | _ => s
  if ds ≠ [] ∧ ds.all isDigitByte = true ∧ digitsVal ds < bound then
    some (digitsVal ds)
  else none

/-! ## Data model of src/packet.rs -/

inductive Mode
  | netascii
  | octet
  | mail
deriving DecidableEq, Repr

/-- `Mode::to_str` as bytes ("netascii" / "octet" / "mail"). -/
def Mode.to_str : Mode → List Nat
  | .netascii => [110, 101, 116, 97, 115, 99, 105, 105]
  | .octet => [111, 99, 116, 101, 116]
  | .mail => [109, 97, 105, 108]

/-- The option record of src/packet.rs (`block_size: u16`, `timeout: u8`,
`transfer_size: u64`). -/
structure Opts where
  block_size : Option Nat := none
  timeout : Option Nat := none
  transfer_size : Option Nat := none
deriving DecidableEq, Repr

structure RwReq where
  filename : List Nat
  mode : Mode
  opts : Opts
deriving DecidableEq, Repr

inductive Packet
  | rrq (req : RwReq)
  | wrq (req : RwReq)
  | data (block : Nat) (payload : List Nat)
  | ack (block : Nat)
  | error (code : Nat) (msg : List Nat)
  | oack (opts : Opts)
deriving DecidableEq, Repr

/-- The intermediate `Opt` enum of src/packet.rs. -/
inductive Opt
  | blkSize (n : Nat)
  | timeout (n : Nat)
  | tsize (n : Nat)
  | invalid (k v : List Nat)
deriving DecidableEq, Repr

def blksizeStr : List Nat := [98, 108, 107, 115, 105, 122, 101]
def timeoutStr : List Nat := [116, 105, 109, 101, 111, 117, 116]
def tsizeStr : List Nat := [116, 115, 105, 122, 101]

/-! ## Option parsing (src/packet.rs lines 84-140) -/

def parse_opt_blksize (input : List Nat) : Option (Opt × List Nat) :=
  match tagNoCase (blksizeStr ++ [0]) input with
  | none => none
  | some r =>
    match nul_str r with
    | none => none
    | some (v, rest) =>
      match uintFromStr 65536 v with
      | some n => if 8 ≤ n ∧ n ≤ 65464 then some (.blkSize n, rest) else none
      | none => none

def parse_opt_timeout (input : List Nat) : Option (Opt × List Nat) :=
  match tagNoCase (timeoutStr ++ [0]) input with
  | none => none
  | some r =>
    match nul_str r with
    | none => none
    | some (v, rest) =>
      match uintFromStr 256 v with
      | some n => if 1 ≤ n then some (.timeout n, rest) else none
      | none => none

def parse_opt_tsize (input : List Nat) : Option (Opt × List Nat) :=
  match tagNoCase (tsizeStr ++ [0]) input with
  | none => none
  | some r =>
    match nul_str r with
    | none => none
    | some (v, rest) =>
      match uintFromStr (2 ^ 64) v with
      | some n => some (.tsize n, rest)
      | none => none

/-- Unknown option pairs: two NUL-terminated strings, kept as `Opt.invalid`. -/
def parse_opt_invalid (input : List Nat) : Option (Opt × List Nat) :=
  match nul_str input with
  | none => none
  | some (k, r) =>
    match nul_str r with
    | none => none
    | some (v, rest) => some (.invalid k v, rest)

/-- One iteration of the `many0(alt(...))` in `parse_opts`. -/
def parse_one_opt (input : List Nat) : Option (Opt × List Nat) :=
  match parse_opt_blksize input with
  | some r => some r
  | none =>
    match parse_opt_timeout input with
    | some r => some r
    | none =>
      match parse_opt_tsize input with
      | some r => some r
      | none => parse_opt_invalid input

/-- nom `many0`: iterate `parse_one_opt` until it fails.  Each successful
iteration consumes at least one byte, so `input.length` fuel is enough. -/
def parse_opts_items : Nat → List Nat → List Opt × List Nat
  | 0, input => ([], input)
  | fuel + 1, input =>
    match parse_one_opt input with
    | some (o, rest) =>
      let (os, r) := parse_opts_items fuel rest
      (o :: os, r)
    | none => ([], input)

/-- `to_opts` of src/packet.rs: fold the parsed items, first occurrence
of each option wins. -/
def opts_insert (o : Opts) : Opt → Opts
  | .blkSize n => if o.block_size = none then { o with block_size := some n } else o
  | .timeout n => if o.timeout = none then { o with timeout := some n } else o
  | .tsize n => if o.transfer_size = none then { o with transfer_size := some n } else o
  | .invalid _ _ => o

def to_opts (l : List Opt) : Opts := l.foldl opts_insert {}

/-- `parse_opts` of src/packet.rs: `many0` then `to_opts`. -/
def parse_opts (input : List Nat) : Opts × List Nat :=
  let (items, rest) := parse_opts_items input.length input
  (to_opts items, rest)

/-! ## Per-variant parsers and `parse_packet` (src/packet.rs lines 142-204) -/

def parse_mode (input : List Nat) : Option (Mode × List Nat) :=
  match tagNoCase (Mode.netascii.to_str ++ [0]) input with
  | some r => some (.netascii, r)
  | none =>
    match tagNoCase (Mode.octet.to_str ++ [0]) input with
    | some r => some (.octet, r)
    | none =>
      match tagNoCase (Mode.mail.to_str ++ [0]) input with
      | some r => some (.mail, r)
      | none => none

def parse_rrq (input : List Nat) : Option (Packet × List Nat) :=
  match nul_str input with
  | none => none
  | some (filename, r) =>
    match parse_mode r with
    | none => none
    | some (mode, r2) =>
      let (opts, r3) := parse_opts r2
      some (.rrq ⟨filename, mode, opts⟩, r3)

def parse_wrq (input : List Nat) : Option (Packet × List Nat) :=
  match nul_str input with
  | none => none
  | some (filename, r) =>
    match parse_mode r with
    | none => none
    | some (mode, r2) =>
      let (opts, r3) := parse_opts r2
      some (.wrq ⟨filename, mode, opts⟩, r3)

def parse_data (input : List Nat) : Option (Packet × List Nat) :=
  match be_u16 input with
  | some (block, rest) => some (.data block rest, [])
  | none => none

def parse_ack (input : List Nat) : Option (Packet × List Nat) :=
  match be_u16 input with
  | some (block, rest) => some (.ack block, rest)
  | none => none

def parse_error (input : List Nat) : Option (Packet × List Nat) :=
  match be_u16 input with
  | none => none
  | some (code, rest) =>
    match nul_str rest with
    | some (msg, r) => some (.error code msg, r)
    | none => none

def parse_oack (input : List Nat) : Option (Packet × List Nat) :=
  let (opts, rest) := parse_opts input
  some (.oack opts, rest)

/-- The per-variant dispatch on the decoded opcode (the `match` inside
`parse_packet`); an unknown opcode is `Error::InvalidPacket`. -/
def parse_variant : Nat → List Nat → Option (Packet × List Nat)
  | 1, body => parse_rrq body
  | 2, body => parse_wrq body
  | 3, body => parse_data body
  | 4, body => parse_ack body
  | 5, body => parse_error body
  | 6, body => parse_oack body
  | _, _ => none

/-- `parse_packet` of src/packet.rs: big-endian opcode dispatch, then the
whole input must have been consumed, otherwise `Error::InvalidPacket`
(modelled as `none`). -/
def parse_packet (input : List Nat) : Option Packet :=
  match input with
  | a :: b :: body =>
    match parse_variant (a * 256 + b) body with
    | some (p, rest) => if rest = [] then some p else none
    | none => none
  | _ => none

/-! ## Encoding (src/packet.rs `Packet::to_bytes` and `Opts::encode`) -/

def Opts.encode (o : Opts) : List Nat :=
  (match o.block_size with
   | some x => blksizeStr ++ [0] ++ decBytes x ++ [0]
   | none => []) ++
  (match o.timeout with
   | some x => timeoutStr ++ [0] ++ decBytes x ++ [0]
   | none => []) ++
  (match o.transfer_size with
   | some x => tsizeStr ++ [0] ++ decBytes x ++ [0]
   | none => [])

def Packet.to_bytes : Packet → List Nat
  | .rrq r => be16 1 ++ r.filename ++ [0] ++ r.mode.to_str ++ [0] ++ r.opts.encode
  | .wrq r => be16 2 ++ r.filename ++ [0] ++ r.mode.to_str ++ [0] ++ r.opts.encode
  | .data block payload => be16 3 ++ be16 block ++ payload
  | .ack block => be16 4 ++ be16 block
  | .error code msg => be16 5 ++ be16 code ++ msg ++ [0]
  | .oack opts => be16 6 ++ opts.encode

/-! ## Basic combinator lemmas -/

theorem nul_str_append (s r : List Nat) (h : 0 ∉ s) :
    nul_str (s ++ 0 :: r) = some (s, r) := by
  induction s with
  | nil => rfl
  | cons c cs ih =>
    have hc : c ≠ 0 := fun hc => h (by simp [hc])
    have ih' := ih (fun hm => h (List.mem_cons_of_mem _ hm))
    cases c with
    | zero => exact absurd rfl hc
    | succ m => simp [nul_str, ih']

theorem nul_str_consumes (i : List Nat) (s r : List Nat)
    (h : nul_str i = some (s, r)) : r.length < i.length := by
  induction i generalizing s r with
  | nil => simp [nul_str] at h
  | cons c cs ih =>
    cases c with
    | zero =>
      simp [nul_str] at h
      simp [← h.2]
    | succ m =>
      simp only [nul_str] at h
      cases hrec : nul_str cs with
      | none => rw [hrec] at h; simp at h
      | some p =>
        rw [hrec] at h
        obtain ⟨s', r'⟩ := p
        simp at h
        have := ih s' r' hrec
        simp [← h.2]
        omega

theorem tagNoCase_self (t rest : List Nat) :
    tagNoCase t (t ++ rest) = some rest := by
  induction t with
  | nil => rfl
  | cons c cs ih => simp [tagNoCase, ih]

theorem tagNoCase_length (t i r : List Nat) (h : tagNoCase t i = some r) :
    r.length + t.length = i.length := by
  induction t generalizing i r with
  | nil => simp [tagNoCase] at h; simp [h]
  | cons c cs ih =>
    cases i with
    | nil => simp [tagNoCase] at h
    | cons x xs =>
      simp only [tagNoCase] at h
      by_cases hx : asciiLower x = asciiLower c
      · rw [if_pos hx] at h
        have := ih xs r h
        simp
        omega
      · rw [if_neg hx] at h; exact absurd h (by simp)

/-! ## Decimal round-trip lemmas -/

theorem digitsVal_append_one (l : List Nat) (d : Nat) :
    digitsVal (l ++ [d]) = digitsVal l * 10 + (d - 48) := by
  simp [digitsVal, List.foldl_append]

theorem decBytes_spec (n : Nat) :
    digitsVal (decBytes n) = n ∧ decBytes n ≠ [] ∧
      ∀ c ∈ decBytes n, 48 ≤ c ∧ c ≤ 57 := by
  induction n using Nat.strong_induction_on with
  | _ n ih =>
    rw [decBytes]
    by_cases h : n < 10
    · refine ⟨?_, by simp [h], ?_⟩
      · simp [h, digitsVal]
      · intro c hc
        simp [h] at hc
        omega
    · have hd : n / 10 < n := Nat.div_lt_self (by omega) (by omega)
      obtain ⟨hv, hne, hdig⟩ := ih (n / 10) hd
      rw [dif_neg h]
      refine ⟨?_, by simp, ?_⟩
      · rw [digitsVal_append_one, hv]
        omega
      · intro c hc
        rcases List.mem_append.mp hc with hc | hc
        · exact hdig c hc
        · simp at hc
          omega

theorem uintFromStr_decBytes (bound n : Nat) (h : n < bound) :
    uintFromStr bound (decBytes n) = some n := by
  obtain ⟨hv, hne, hdig⟩ := decBytes_spec n
  have hds : (match decBytes n with | 43 :: rest => rest | _ => decBytes n)
      = decBytes n := by
    split
    · next rest heq =>
      have hc := hdig 43 (by rw [heq]; exact List.mem_cons_self _ _)
      omega
    · rfl
  have hall : (decBytes n).all isDigitByte = true := by
    rw [List.all_eq_true]
    intro c hc
    have := hdig c hc
    simp [isDigitByte]
    omega
  unfold uintFromStr
  simp only [hds]
  rw [if_pos ⟨hne, hall, by rw [hv]; exact h⟩, hv]

theorem decBytes_no_nul (n : Nat) : 0 ∉ decBytes n := by
  intro hm
  have := (decBytes_spec n).2.2 0 hm
  omega

theorem asciiLower_eq_zero (c : Nat) : asciiLower c = 0 ↔ c = 0 := by
  unfold asciiLower
  split <;> omega

/-- Recognizing a NUL-terminated tag on a NUL-terminated field: the tag
matches exactly when the field equals it ASCII case-insensitively. -/
theorem tagNoCase_pair (t : List Nat) (ht : 0 ∉ t) :
    ∀ (k X : List Nat), 0 ∉ k →
      tagNoCase (t ++ [0]) (k ++ 0 :: X) =
        if k.map asciiLower = t.map asciiLower then some X else none := by
  induction t with
  | nil =>
    intro k X hk
    cases k with
    | nil => simp [tagNoCase]
    | cons c cs =>
      have hc : c ≠ 0 := fun h => hk (by simp [h])
      have h0 : asciiLower 0 = 0 := by simp [asciiLower]
      have hne : asciiLower c ≠ asciiLower 0 := by
        rw [h0]
        intro hEq
        exact hc ((asciiLower_eq_zero c).mp hEq)
      simp [tagNoCase, hne]
  | cons tc ts ih =>
    intro k X hk
    have htc : tc ≠ 0 := fun h => ht (by simp [h])
    have hts : 0 ∉ ts := fun h => ht (List.mem_cons_of_mem _ h)
    cases k with
    | nil =>
      have h0 : asciiLower 0 = 0 := by simp [asciiLower]
      have hne : asciiLower 0 ≠ asciiLower tc := by
        rw [h0]
        intro hEq
        exact htc ((asciiLower_eq_zero tc).mp hEq.symm)
      simp [tagNoCase, hne]
    | cons c cs =>
      have hcs : 0 ∉ cs := fun h => hk (List.mem_cons_of_mem _ h)
      by_cases hc : asciiLower c = asciiLower tc
      · have step : tagNoCase ((tc :: ts) ++ [0]) ((c :: cs) ++ 0 :: X)
            = tagNoCase (ts ++ [0]) (cs ++ 0 :: X) := by
          simp [tagNoCase, hc]
        rw [step, ih hts cs X hcs]
        by_cases hm : List.map asciiLower cs = List.map asciiLower ts
        · simp [hm, hc]
        · simp [hm, hc]
      · simp [tagNoCase, hc]

theorem parse_opt_blksize_consumes (i : List Nat) (o : Opt) (r : List Nat)
    (h : parse_opt_blksize i = some (o, r)) : r.length < i.length := by
  unfold parse_opt_blksize at h
  split at h
  · simp at h
  · rename_i r1 htag
    split at h
    · simp at h
    · rename_i v rest hns
      have h1 := tagNoCase_length _ _ _ htag
      have h2 := nul_str_consumes _ _ _ hns
      split at h
      · split at h
        · simp only [Option.some.injEq, Prod.mk.injEq] at h
          obtain ⟨h3, h4⟩ := h
          subst h4
          simp at h1
          omega
        · simp at h
      · simp at h

theorem parse_opt_timeout_consumes (i : List Nat) (o : Opt) (r : List Nat)
    (h : parse_opt_timeout i = some (o, r)) : r.length < i.length := by
  unfold parse_opt_timeout at h
  split at h
  · simp at h
  · rename_i r1 htag
    split at h
    · simp at h
    · rename_i v rest hns
      have h1 := tagNoCase_length _ _ _ htag
      have h2 := nul_str_consumes _ _ _ hns
      split at h
      · split at h
        · simp only [Option.some.injEq, Prod.mk.injEq] at h
          obtain ⟨h3, h4⟩ := h
          subst h4
          simp at h1
          omega
        · simp at h
      · simp at h

theorem parse_opt_tsize_consumes (i : List Nat) (o : Opt) (r : List Nat)
    (h : parse_opt_tsize i = some (o, r)) : r.length < i.length := by
  unfold parse_opt_tsize at h
  split at h
  · simp at h
  · rename_i r1 htag
    split at h
    · simp at h
    · rename_i v rest hns
      have h1 := tagNoCase_length _ _ _ htag
      have h2 := nul_str_consumes _ _ _ hns
      split at h
      · simp only [Option.some.injEq, Prod.mk.injEq] at h
        obtain ⟨h3, h4⟩ := h
        subst h4
        simp at h1
        omega
      · simp at h

theorem parse_opt_invalid_consumes (i : List Nat) (o : Opt) (r : List Nat)
    (h : parse_opt_invalid i = some (o, r)) : r.length < i.length := by
  unfold parse_opt_invalid at h
  split at h
  · simp at h
  · rename_i k r1 h1
    split at h
    · simp at h
    · rename_i v rest h2
      have c1 := nul_str_consumes _ _ _ h1
      have c2 := nul_str_consumes _ _ _ h2
      simp only [Option.some.injEq, Prod.mk.injEq] at h
      obtain ⟨h3, h4⟩ := h
      subst h4
      omega

theorem parse_one_opt_consumes (i : List Nat) (o : Opt) (r : List Nat)
    (h : parse_one_opt i = some (o, r)) : r.length < i.length := by
  unfold parse_one_opt at h
  split at h
  · rename_i p hp
    obtain ⟨o', r'⟩ := p
    simp only [Option.some.injEq, Prod.mk.injEq] at h
    obtain ⟨h1, h2⟩ := h
    rw [← h2]
    exact parse_opt_blksize_consumes i o' r' hp
  · split at h
    · rename_i p hp
      obtain ⟨o', r'⟩ := p
      simp only [Option.some.injEq, Prod.mk.injEq] at h
      obtain ⟨h1, h2⟩ := h
      rw [← h2]
      exact parse_opt_timeout_consumes i o' r' hp
    · split at h
      · rename_i p hp
        obtain ⟨o', r'⟩ := p
        simp only [Option.some.injEq, Prod.mk.injEq] at h
        obtain ⟨h1, h2⟩ := h
        rw [← h2]
        exact parse_opt_tsize_consumes i o' r' hp
      · exact parse_opt_invalid_consumes i o r h

theorem parse_one_opt_nil : parse_one_opt [] = none := by decide

theorem parse_opts_items_nil (f : Nat) : parse_opts_items f [] = ([], []) := by
  cases f with
  | zero => rfl
  | succ g => simp [parse_opts_items, parse_one_opt_nil]

theorem parse_opts_items_stable (f₁ : Nat) : ∀ (f₂ : Nat) (i : List Nat),
    i.length ≤ f₁ → i.length ≤ f₂ →
    parse_opts_items f₁ i = parse_opts_items f₂ i := by
  induction f₁ with
  | zero =>
    intro f₂ i h1 _
    have : i = [] := List.length_eq_zero.mp (Nat.le_zero.mp h1)
    subst this
    rw [parse_opts_items_nil, parse_opts_items_nil]
  | succ f ih =>
    intro f₂ i h1 h2
    cases f₂ with
    | zero =>
      have : i = [] := List.length_eq_zero.mp (Nat.le_zero.mp h2)
      subst this
      rw [parse_opts_items_nil, parse_opts_items_nil]
    | succ g =>
      cases hp : parse_one_opt i with
      | none => simp [parse_opts_items, hp]
      | some p =>
        obtain ⟨o, rest⟩ := p
        have hc := parse_one_opt_consumes i o rest hp
        simp only [parse_opts_items, hp]
        rw [ih g rest (by omega) (by omega)]

theorem parse_opts_items_cons (i : List Nat) (o : Opt) (rest : List Nat)
    (h : parse_one_opt i = some (o, rest)) :
    parse_opts_items i.length i
      = (o :: (parse_opts_items rest.length rest).1,
         (parse_opts_items rest.length rest).2) := by
  have hc := parse_one_opt_consumes i o rest h
  cases hl : i.length with
  | zero => omega
  | succ f =>
    simp only [parse_opts_items, h]
    rw [parse_opts_items_stable f rest.length rest (by omega) (by omega)]

/-! ## Streams of option name/value pairs -/

/-- The wire form of a list of option pairs: each name and value is
NUL-terminated. -/
def pairStream (ps : List (List Nat × List Nat)) : List Nat :=
  ps.foldr (fun p acc => p.1 ++ 0 :: (p.2 ++ 0 :: acc)) []

/-- How one name/value pair is classified by the alternatives of
`parse_opts`: a case-insensitive recognized name with a valid in-range
value yields the typed option, anything else is an unknown
(`Opt.invalid`) pair. -/
def classifyPair (k v : List Nat) : Opt :=
  if k.map asciiLower = blksizeStr.map asciiLower then
    match uintFromStr 65536 v with
    | some n => if 8 ≤ n ∧ n ≤ 65464 then .blkSize n else .invalid k v
    | none => .invalid k v
  else if k.map asciiLower = timeoutStr.map asciiLower then
    match uintFromStr 256 v with
    | some n => if 1 ≤ n then .timeout n else .invalid k v
    | none => .invalid k v
  else if k.map asciiLower = tsizeStr.map asciiLower then
    match uintFromStr (2 ^ 64) v with
    | some n => .tsize n
    | none => .invalid k v
  else .invalid k v

theorem parse_one_opt_pair (k v rest : List Nat) (hk : 0 ∉ k) (hv : 0 ∉ v) :
    parse_one_opt (k ++ 0 :: (v ++ 0 :: rest)) = some (classifyPair k v, rest) := by
  have hb : (0 : Nat) ∉ blksizeStr := by decide
  have htm : (0 : Nat) ∉ timeoutStr := by decide
  have hts : (0 : Nat) ∉ tsizeStr := by decide
  have e1 := tagNoCase_pair blksizeStr hb k (v ++ 0 :: rest) hk
  have e2 := tagNoCase_pair timeoutStr htm k (v ++ 0 :: rest) hk
  have e3 := tagNoCase_pair tsizeStr hts k (v ++ 0 :: rest) hk
  have en := nul_str_append v rest hv
  have enk := nul_str_append k (v ++ 0 :: rest) hk
  have dbt : ¬ List.map asciiLower blksizeStr = List.map asciiLower timeoutStr := by decide
  have dbz : ¬ List.map asciiLower blksizeStr = List.map asciiLower tsizeStr := by decide
  have dtb : ¬ List.map asciiLower timeoutStr = List.map asciiLower blksizeStr := by decide
  have dtz : ¬ List.map asciiLower timeoutStr = List.map asciiLower tsizeStr := by decide
  have dzb : ¬ List.map asciiLower tsizeStr = List.map asciiLower blksizeStr := by decide
  have dzt : ¬ List.map asciiLower tsizeStr = List.map asciiLower timeoutStr := by decide
  unfold parse_one_opt parse_opt_blksize parse_opt_timeout parse_opt_tsize
    parse_opt_invalid classifyPair
  by_cases h1 : k.map asciiLower = blksizeStr.map asciiLower
  · have hn2 : ¬ k.map asciiLower = timeoutStr.map asciiLower := by
      rw [h1]; decide
    have hn3 : ¬ k.map asciiLower = tsizeStr.map asciiLower := by
      rw [h1]; decide
    cases hu : uintFromStr 65536 v with
    | some n =>
      by_cases h8 : 8 ≤ n ∧ n ≤ 65464
      · simp [dbt, dbz, dtb, dtz, dzb, dzt, e1, h1, en, hu, h8]
      · simp [dbt, dbz, dtb, dtz, dzb, dzt, e1, e2, e3, h1, hn2, hn3, en, enk, hu, h8]
    | none => simp [dbt, dbz, dtb, dtz, dzb, dzt, e1, e2, e3, h1, hn2, hn3, en, enk, hu]
  · by_cases h2 : k.map asciiLower = timeoutStr.map asciiLower
    · have hn3 : ¬ k.map asciiLower = tsizeStr.map asciiLower := by
        rw [h2]; decide
      cases hu : uintFromStr 256 v with
      | some n =>
        by_cases ht1 : 1 ≤ n
        · simp [dbt, dbz, dtb, dtz, dzb, dzt, e1, e2, h1, h2, en, hu, ht1]
        · simp [dbt, dbz, dtb, dtz, dzb, dzt, e1, e2, e3, h1, h2, hn3, en, enk, hu, ht1]
      | none => simp [dbt, dbz, dtb, dtz, dzb, dzt, e1, e2, e3, h1, h2, hn3, en, enk, hu]
    · by_cases h3 : k.map asciiLower = tsizeStr.map asciiLower
      · cases hu : uintFromStr (2 ^ 64) v with
        | some n =>
          norm_num at hu
          simp [dbt, dbz, dtb, dtz, dzb, dzt, e1, e2, e3, h1, h2, h3, en, hu]
        | none =>
          norm_num at hu
          simp [dbt, dbz, dtb, dtz, dzb, dzt, e1, e2, e3, h1, h2, h3, en, enk, hu]
      · simp [dbt, dbz, dtb, dtz, dzb, dzt, e1, e2, e3, h1, h2, h3, en, enk]

theorem parse_opts_items_pairStream (ps : List (List Nat × List Nat))
    (h : ∀ p ∈ ps, 0 ∉ p.1 ∧ 0 ∉ p.2) :
    parse_opts_items (pairStream ps).length (pairStream ps)
      = (ps.map (fun p => classifyPair p.1 p.2), []) := by
  induction ps with
  | nil => rfl
  | cons p ps ih =>
    obtain ⟨k, v⟩ := p
    have hk := (h (k, v) (List.mem_cons_self _ _)).1
    have hv := (h (k, v) (List.mem_cons_self _ _)).2
    have ih' := ih (fun q hq => h q (List.mem_cons_of_mem _ hq))
    have hstream : pairStream ((k, v) :: ps) = k ++ 0 :: (v ++ 0 :: pairStream ps) := rfl
    rw [hstream,
      parse_opts_items_cons _ _ _ (parse_one_opt_pair k v (pairStream ps) hk hv),
      ih']
    simp

/-- Option pair streams always parse in full, to the classification of
their pairs with first occurrences kept. -/
theorem parse_opts_pairStream (ps : List (List Nat × List Nat))
    (h : ∀ p ∈ ps, 0 ∉ p.1 ∧ 0 ∉ p.2) :
    parse_opts (pairStream ps)
      = (to_opts (ps.map (fun p => classifyPair p.1 p.2)), []) := by
  unfold parse_opts
  rw [parse_opts_items_pairStream ps h]

/-! ## First-occurrence semantics of `to_opts` -/

def Opt.blkVal : Opt → Option Nat
  | .blkSize n => some n
  | _ => none

def Opt.timeoutVal : Opt → Option Nat
  | .timeout n => some n
  | _ => none

def Opt.tsizeVal : Opt → Option Nat
  | .tsize n => some n
  | _ => none

theorem foldl_opts_insert_block_size (l : List Opt) (acc : Opts) :
    (l.foldl opts_insert acc).block_size
      = (acc.block_size.or (l.filterMap Opt.blkVal).head?) := by
  induction l generalizing acc with
  | nil => rcases hh : acc.block_size with _ | b <;> simp [hh]
  | cons o l ih =>
    rw [List.foldl_cons, ih]
    cases o with
    | blkSize n =>
      by_cases hb : acc.block_size = none
      · simp [opts_insert, hb, Opt.blkVal]
      · rcases hob : acc.block_size with _ | b
        · exact absurd hob hb
        · simp [opts_insert, hob, Opt.blkVal]
    | timeout n =>
      have : (opts_insert acc (Opt.timeout n)).block_size = acc.block_size := by
        simp only [opts_insert]
        split <;> rfl
      rw [this]
      simp [Opt.blkVal]
    | tsize n =>
      have : (opts_insert acc (Opt.tsize n)).block_size = acc.block_size := by
        simp only [opts_insert]
        split <;> rfl
      rw [this]
      simp [Opt.blkVal]
    | invalid k v =>
      simp [opts_insert, Opt.blkVal]

theorem foldl_opts_insert_timeout (l : List Opt) (acc : Opts) :
    (l.foldl opts_insert acc).timeout
      = (acc.timeout.or (l.filterMap Opt.timeoutVal).head?) := by
  induction l generalizing acc with
  | nil => rcases hh : acc.timeout with _ | b <;> simp [hh]
  | cons o l ih =>
    rw [List.foldl_cons, ih]
    cases o with
    | timeout n =>
      by_cases hb : acc.timeout = none
      · simp [opts_insert, hb, Opt.timeoutVal]
      · rcases hob : acc.timeout with _ | b
        · exact absurd hob hb
        · simp [opts_insert, hob, Opt.timeoutVal]
    | blkSize n =>
      have : (opts_insert acc (Opt.blkSize n)).timeout = acc.timeout := by
        simp only [opts_insert]
        split <;> rfl
      rw [this]
      simp [Opt.timeoutVal]
    | tsize n =>
      have : (opts_insert acc (Opt.tsize n)).timeout = acc.timeout := by
        simp only [opts_insert]
        split <;> rfl
      rw [this]
      simp [Opt.timeoutVal]
    | invalid k v =>
      simp [opts_insert, Opt.timeoutVal]

theorem foldl_opts_insert_transfer_size (l : List Opt) (acc : Opts) :
    (l.foldl opts_insert acc).transfer_size
      = (acc.transfer_size.or (l.filterMap Opt.tsizeVal).head?) := by
  induction l generalizing acc with
  | nil => rcases hh : acc.transfer_size with _ | b <;> simp [hh]
  | cons o l ih =>
    rw [List.foldl_cons, ih]
    cases o with
    | tsize n =>
      by_cases hb : acc.transfer_size = none
      · simp [opts_insert, hb, Opt.tsizeVal]
      · rcases hob : acc.transfer_size with _ | b
        · exact absurd hob hb
        · simp [opts_insert, hob, Opt.tsizeVal]
    | blkSize n =>
      have : (opts_insert acc (Opt.blkSize n)).transfer_size = acc.transfer_size := by
        simp only [opts_insert]
        split <;> rfl
      rw [this]
      simp [Opt.tsizeVal]
    | timeout n =>
      have : (opts_insert acc (Opt.timeout n)).transfer_size = acc.transfer_size := by
        simp only [opts_insert]
        split <;> rfl
      rw [this]
      simp [Opt.tsizeVal]
    | invalid k v =>
      simp [opts_insert, Opt.tsizeVal]

theorem to_opts_block_size (l : List Opt) :
    (to_opts l).block_size = (l.filterMap Opt.blkVal).head? := by
  rw [to_opts, foldl_opts_insert_block_size]
  rfl

theorem to_opts_timeout (l : List Opt) :
    (to_opts l).timeout = (l.filterMap Opt.timeoutVal).head? := by
  rw [to_opts, foldl_opts_insert_timeout]
  rfl

theorem to_opts_transfer_size (l : List Opt) :
    (to_opts l).transfer_size = (l.filterMap Opt.tsizeVal).head? := by
  rw [to_opts, foldl_opts_insert_transfer_size]
  rfl

/-! ## Encoded options parse back -/

/-- The option pairs emitted by `Opts::encode`, in source order. -/
def Opts.pairs (o : Opts) : List (List Nat × List Nat) :=
  (match o.block_size with
   | some x => [(blksizeStr, decBytes x)]
   | none => []) ++
  (match o.timeout with
   | some x => [(timeoutStr, decBytes x)]
   | none => []) ++
  (match o.transfer_size with
   | some x => [(tsizeStr, decBytes x)]
   | none => [])

theorem encode_eq_pairStream (o : Opts) : o.encode = pairStream o.pairs := by
  rcases o with ⟨bs, tm, ts⟩
  cases bs <;> cases tm <;> cases ts <;>
    simp [Opts.encode, Opts.pairs, pairStream]

theorem classify_blksize (n : Nat) (h8 : 8 ≤ n) (h65 : n ≤ 65464) :
    classifyPair blksizeStr (decBytes n) = .blkSize n := by
  unfold classifyPair
  rw [if_pos rfl, uintFromStr_decBytes 65536 n (by omega)]
  simp [h8, h65]

theorem classify_timeout (n : Nat) (h1 : 1 ≤ n) (h255 : n ≤ 255) :
    classifyPair timeoutStr (decBytes n) = .timeout n := by
  unfold classifyPair
  rw [if_neg (by decide), if_pos rfl, uintFromStr_decBytes 256 n (by omega)]
  simp [h1]

theorem classify_tsize (n : Nat) (h : n < 2 ^ 64) :
    classifyPair tsizeStr (decBytes n) = .tsize n := by
  unfold classifyPair
  rw [if_neg (by decide), if_neg (by decide), if_pos rfl,
    uintFromStr_decBytes (2 ^ 64) n h]

/-- Well-formedness of an `Opts` value: the invariants guaranteed by
the option parser and by the `u16`/`u8`/`u64` field types. -/
def WFOpts (o : Opts) : Prop :=
  (∀ n ∈ o.block_size, 8 ≤ n ∧ n ≤ 65464) ∧
  (∀ n ∈ o.timeout, 1 ≤ n ∧ n ≤ 255) ∧
  (∀ n ∈ o.transfer_size, n < 2 ^ 64)

theorem opts_pairs_nul_free (o : Opts) :
    ∀ p ∈ o.pairs, (0 : Nat) ∉ p.1 ∧ (0 : Nat) ∉ p.2 := by
  intro p hp
  rcases o with ⟨bs, tm, ts⟩
  simp only [Opts.pairs] at hp
  rcases List.mem_append.mp hp with hp' | hp'
  · rcases List.mem_append.mp hp' with hp'' | hp''
    · cases bs with
      | none => simp at hp''
      | some x =>
        simp at hp''
        subst hp''
        refine ⟨?_, decBytes_no_nul x⟩
        show (0 : Nat) ∉ blksizeStr
        decide
    · cases tm with
      | none => simp at hp''
      | some x =>
        simp at hp''
        subst hp''
        refine ⟨?_, decBytes_no_nul x⟩
        show (0 : Nat) ∉ timeoutStr
        decide
  · cases ts with
    | none => simp at hp'
    | some x =>
      simp at hp'
      subst hp'
      refine ⟨?_, decBytes_no_nul x⟩
      show (0 : Nat) ∉ tsizeStr
      decide

theorem parse_opts_encode (o : Opts) (h : WFOpts o) :
    parse_opts o.encode = (o, []) := by
  obtain ⟨h1, h2, h3⟩ := h
  rw [encode_eq_pairStream, parse_opts_pairStream _ (opts_pairs_nul_free o)]
  rcases o with ⟨bs, tm, ts⟩
  rcases bs with _ | x <;> rcases tm with _ | y <;> rcases ts with _ | z <;>
    simp_all [Opts.pairs, to_opts, opts_insert, classify_blksize,
      classify_timeout, classify_tsize]

theorem parse_mode_to_str (m : Mode) (rest : List Nat) :
    parse_mode (m.to_str ++ 0 :: rest) = some (m, rest) := by
  cases m with
  | netascii =>
    unfold parse_mode
    rw [tagNoCase_pair Mode.netascii.to_str (by decide) Mode.netascii.to_str
      rest (by decide)]
    simp
  | octet =>
    have d1 : ¬ (Mode.octet.to_str.map asciiLower
        = Mode.netascii.to_str.map asciiLower) := by decide
    unfold parse_mode
    rw [tagNoCase_pair Mode.netascii.to_str (by decide) Mode.octet.to_str
      rest (by decide),
      tagNoCase_pair Mode.octet.to_str (by decide) Mode.octet.to_str
      rest (by decide)]
    simp [d1]
  | mail =>
    have d1 : ¬ (Mode.mail.to_str.map asciiLower
        = Mode.netascii.to_str.map asciiLower) := by decide
    have d2 : ¬ (Mode.mail.to_str.map asciiLower
        = Mode.octet.to_str.map asciiLower) := by decide
    unfold parse_mode
    rw [tagNoCase_pair Mode.netascii.to_str (by decide) Mode.mail.to_str
      rest (by decide),
      tagNoCase_pair Mode.octet.to_str (by decide) Mode.mail.to_str
      rest (by decide),
      tagNoCase_pair Mode.mail.to_str (by decide) Mode.mail.to_str
      rest (by decide)]
    simp [d1, d2]

theorem be_u16_be16 (n : Nat) (rest : List Nat) (h : n < 65536) :
    be_u16 (be16 n ++ rest) = some (n, rest) := by
  simp only [be16, be_u16, List.cons_append, List.nil_append,
    Option.some.injEq, Prod.mk.injEq]
  exact ⟨by omega, trivial⟩

/-- Well-formed packet values: strings contain no NUL byte, numeric
fields fit their machine types, and option fields satisfy the `Opts`
invariants (cf. the claim). -/
def WFPacket : Packet → Prop
  | .rrq r => 0 ∉ r.filename ∧ WFOpts r.opts
  | .wrq r => 0 ∉ r.filename ∧ WFOpts r.opts
  | .data b _ => b < 65536
  | .ack b => b < 65536
  | .error c msg => c < 65536 ∧ 0 ∉ msg
  | .oack o => WFOpts o

/-- C1: For every well-formed packet value of the six variants RRQ, WRQ,
DATA, ACK, ERROR, OACK (strings NUL-free, option fields within the
`Opts` invariants), decoding the byte string produced by encoding the
packet yields exactly the packet back:
`parse_packet p.to_bytes = some p`. -/
theorem decode_encode_roundtrip (p : Packet) (h : WFPacket p) :
    parse_packet p.to_bytes = some p := by
  cases p with
  | rrq r =>
    obtain ⟨hf, ho⟩ := h
    rcases r with ⟨f, m, o⟩
    have hbe : be16 1 = [0, 1] := by decide
    simp only [Packet.to_bytes, hbe, List.append_assoc, List.cons_append,
      List.nil_append, List.singleton_append]
    simp only [parse_packet, parse_variant]
    simp only [parse_rrq, nul_str_append f _ hf, parse_mode_to_str,
      parse_opts_encode o ho]
    simp
  | wrq r =>
    obtain ⟨hf, ho⟩ := h
    rcases r with ⟨f, m, o⟩
    have hbe : be16 2 = [0, 2] := by decide
    simp only [Packet.to_bytes, hbe, List.append_assoc, List.cons_append,
      List.nil_append, List.singleton_append]
    simp only [parse_packet, parse_variant]
    simp only [parse_wrq, nul_str_append f _ hf, parse_mode_to_str,
      parse_opts_encode o ho]
    simp
  | data b payload =>
    have hbe : be16 3 = [0, 3] := by decide
    simp only [Packet.to_bytes, hbe, List.append_assoc, List.cons_append,
      List.nil_append]
    simp only [parse_packet, parse_variant]
    simp only [parse_data, be_u16_be16 b payload h]
    simp
  | ack b =>
    have hbe : be16 4 = [0, 4] := by decide
    have hb := be_u16_be16 b [] h
    rw [List.append_nil] at hb
    simp only [Packet.to_bytes, hbe, List.append_assoc, List.cons_append,
      List.nil_append]
    simp only [parse_packet, parse_variant]
    simp only [parse_ack, hb]
    simp
  | error c msg =>
    obtain ⟨hc, hm⟩ := h
    have hbe : be16 5 = [0, 5] := by decide
    simp only [Packet.to_bytes, hbe, List.append_assoc, List.cons_append,
      List.nil_append]
    simp only [parse_packet, parse_variant]
    simp only [parse_error, be_u16_be16 c (msg ++ [0]) hc,
      nul_str_append msg [] hm]
    simp
  | oack o =>
    have hbe : be16 6 = [0, 6] := by decide
    simp only [Packet.to_bytes, hbe, List.append_assoc, List.cons_append,
      List.nil_append]
    simp only [parse_packet, parse_variant]
    simp only [parse_oack, parse_opts_encode o h]
    simp

/-- Witness for C1 at a concrete packet: the RRQ of the repository's own
test vector, with all three options present. -/
theorem decode_encode_roundtrip_witness :
    WFPacket (.rrq ⟨[97, 98, 99], .netascii, ⟨some 123, some 3, some 5556⟩⟩) ∧
    parse_packet (Packet.rrq
        ⟨[97, 98, 99], .netascii, ⟨some 123, some 3, some 5556⟩⟩).to_bytes
      = some (.rrq ⟨[97, 98, 99], .netascii, ⟨some 123, some 3, some 5556⟩⟩) := by
  have hwf : WFPacket
      (.rrq ⟨[97, 98, 99], .netascii, ⟨some 123, some 3, some 5556⟩⟩) := by
    refine ⟨by decide, ?_, ?_, ?_⟩ <;>
      (intro n hn; simp at hn; subst hn) <;> norm_num
  exact ⟨hwf, decode_encode_roundtrip _ hwf⟩

/-- C5: decode succeeds only when the per-variant parser consumes the
entire input; in particular every ACK datagram that is not exactly 4
bytes long, and every ERROR datagram with bytes after the message's
terminating NUL, decodes to the `InvalidPacket` error (`none`). -/
theorem decode_requires_full_consumption :
    (∀ (input : List Nat) (p : Packet), parse_packet input = some p →
       ∃ a b body, input = a :: b :: body ∧
         parse_variant (a * 256 + b) body = some (p, [])) ∧
    (∀ input : List Nat, input.take 2 = [0, 4] → input.length ≠ 4 →
       parse_packet input = none) ∧
    (∀ (c₁ c₂ : Nat) (msg rest : List Nat), 0 ∉ msg → rest ≠ [] →
       parse_packet (0 :: 5 :: c₁ :: c₂ :: (msg ++ 0 :: rest)) = none) := by
  refine ⟨?_, ?_, ?_⟩
  · intro input p h
    match input with
    | [] => simp [parse_packet] at h
    | [a] => simp [parse_packet] at h
    | a :: b :: body =>
      refine ⟨a, b, body, rfl, ?_⟩
      simp only [parse_packet] at h
      split at h
      · rename_i q rest hv
        split at h
        · rename_i hrest
          subst hrest
          simp only [Option.some.injEq] at h
          rw [hv, h]
        · simp at h
      · simp at h
  · intro input h2 hlen
    match input, h2 with
    | a :: b :: body, h2 =>
      simp only [List.take, List.cons.injEq] at h2
      obtain ⟨ha, hb, -⟩ := h2
      subst ha
      subst hb
      simp only [parse_packet]
      have hop : (0 : Nat) * 256 + 4 = 4 := by norm_num
      rw [hop]
      match body with
      | [] => simp [parse_variant, parse_ack, be_u16]
      | [x] => simp [parse_variant, parse_ack, be_u16]
      | x :: y :: r =>
        have hr : r ≠ [] := by
          intro hr
          subst hr
          simp at hlen
        simp [parse_variant, parse_ack, be_u16, hr]
  · intro c₁ c₂ msg rest hm hr
    simp only [parse_packet]
    have hop : (0 : Nat) * 256 + 5 = 5 := by norm_num
    rw [hop]
    simp [parse_variant, parse_error, be_u16, nul_str_append msg rest hm, hr]

theorem classifyPair_eq_blkSize (k v : List Nat) (n : Nat)
    (h : classifyPair k v = .blkSize n) :
    k.map asciiLower = blksizeStr.map asciiLower ∧
      uintFromStr 65536 v = some n ∧ 8 ≤ n ∧ n ≤ 65464 := by
  unfold classifyPair at h
  by_cases h1 : k.map asciiLower = blksizeStr.map asciiLower
  · rw [if_pos h1] at h
    cases hu : uintFromStr 65536 v with
    | some m =>
      simp only [hu] at h
      by_cases h8 : 8 ≤ m ∧ m ≤ 65464
      · rw [if_pos h8] at h
        simp only [Opt.blkSize.injEq] at h
        subst h
        exact ⟨h1, rfl, h8.1, h8.2⟩
      · rw [if_neg h8] at h
        simp at h
    | none =>
      simp only [hu] at h
      simp at h
  · rw [if_neg h1] at h
    by_cases h2 : k.map asciiLower = timeoutStr.map asciiLower
    · rw [if_pos h2] at h
      cases hu : uintFromStr 256 v with
      | some m =>
        simp only [hu] at h
        by_cases ht : 1 ≤ m
        · rw [if_pos ht] at h
          simp at h
        · rw [if_neg ht] at h
          simp at h
      | none =>
        simp only [hu] at h
        simp at h
    · rw [if_neg h2] at h
      by_cases h3 : k.map asciiLower = tsizeStr.map asciiLower
      · rw [if_pos h3] at h
        cases hu : uintFromStr (2 ^ 64) v with
        | some m =>
          simp only [hu] at h
          simp at h
        | none =>
          simp only [hu] at h
          simp at h
      · rw [if_neg h3] at h
        simp at h

theorem classifyPair_eq_timeout (k v : List Nat) (n : Nat)
    (h : classifyPair k v = .timeout n) :
    k.map asciiLower = timeoutStr.map asciiLower ∧
      uintFromStr 256 v = some n ∧ 1 ≤ n := by
  unfold classifyPair at h
  by_cases h1 : k.map asciiLower = blksizeStr.map asciiLower
  · rw [if_pos h1] at h
    cases hu : uintFromStr 65536 v with
    | some m =>
      simp only [hu] at h
      by_cases h8 : 8 ≤ m ∧ m ≤ 65464
      · rw [if_pos h8] at h
        simp at h
      · rw [if_neg h8] at h
        simp at h
    | none =>
      simp only [hu] at h
      simp at h
  · rw [if_neg h1] at h
    by_cases h2 : k.map asciiLower = timeoutStr.map asciiLower
    · rw [if_pos h2] at h
      cases hu : uintFromStr 256 v with
      | some m =>
        simp only [hu] at h
        by_cases ht : 1 ≤ m
        · rw [if_pos ht] at h
          simp only [Opt.timeout.injEq] at h
          subst h
          exact ⟨h2, rfl, ht⟩
        · rw [if_neg ht] at h
          simp at h
      | none =>
        simp only [hu] at h
        simp at h
    · rw [if_neg h2] at h
      by_cases h3 : k.map asciiLower = tsizeStr.map asciiLower
      · rw [if_pos h3] at h
        cases hu : uintFromStr (2 ^ 64) v with
        | some m =>
          simp only [hu] at h
          simp at h
        | none =>
          simp only [hu] at h
          simp at h
      · rw [if_neg h3] at h
        simp at h

/-- Name and value of every pair are free of NUL bytes (the wire form of
an option pair cannot contain NUL inside a field). -/
def NulFree (ps : List (List Nat × List Nat)) : Prop :=
  ∀ p ∈ ps, (0 : Nat) ∉ p.1 ∧ (0 : Nat) ∉ p.2

/-- C6: option parsing on every option pair stream: `block_size` is
absent whenever no blksize pair carries a numeric value in [8, 65464];
`timeout` is absent whenever no timeout pair carries a numeric value
that is at least 1; unknown option names never cause a decode failure
(the stream always parses in full, to the classification of its pairs)
and never appear in the result (an all-unknown stream yields the empty
option set); and each field holds the value of the first valid
occurrence of its option name. -/
theorem option_parsing_properties :
    (∀ ps : List (List Nat × List Nat), NulFree ps →
       parse_opts (pairStream ps)
         = (to_opts (ps.map fun p => classifyPair p.1 p.2), [])) ∧
    (∀ ps, NulFree ps →
       (∀ p ∈ ps, ¬ ∃ n, uintFromStr 65536 p.2 = some n ∧
          8 ≤ n ∧ n ≤ 65464) →
       (parse_opts (pairStream ps)).1.block_size = none) ∧
    (∀ ps, NulFree ps →
       (∀ p ∈ ps, ¬ ∃ n, uintFromStr 256 p.2 = some n ∧ 1 ≤ n) →
       (parse_opts (pairStream ps)).1.timeout = none) ∧
    (∀ ps, NulFree ps →
       (∀ p ∈ ps, classifyPair p.1 p.2 = .invalid p.1 p.2) →
       parse_opts (pairStream ps) = ({}, [])) ∧
    (∀ ps, NulFree ps →
       (parse_opts (pairStream ps)).1.block_size
         = ((ps.map fun p => classifyPair p.1 p.2).filterMap Opt.blkVal).head? ∧
       (parse_opts (pairStream ps)).1.timeout
         = ((ps.map fun p => classifyPair p.1 p.2).filterMap
             Opt.timeoutVal).head? ∧
       (parse_opts (pairStream ps)).1.transfer_size
         = ((ps.map fun p => classifyPair p.1 p.2).filterMap
             Opt.tsizeVal).head?) := by
  have main := parse_opts_pairStream
  refine ⟨fun ps h => main ps h, ?_, ?_, ?_, ?_⟩
  · intro ps h hbad
    rw [main ps h]
    simp only [to_opts_block_size]
    have : (ps.map fun p => classifyPair p.1 p.2).filterMap Opt.blkVal = [] := by
      rw [List.filterMap_eq_nil]
      intro a ha
      rcases List.mem_map.mp ha with ⟨p, hp, rfl⟩
      cases hcl : classifyPair p.1 p.2 with
      | blkSize n =>
        obtain ⟨-, hu, h8, h65⟩ := classifyPair_eq_blkSize _ _ _ hcl
        exact absurd ⟨n, hu, h8, h65⟩ (hbad p hp)
      | timeout n => simp [Opt.blkVal, hcl]
      | tsize n => simp [Opt.blkVal, hcl]
      | invalid a b => simp [Opt.blkVal, hcl]
    rw [this]
    rfl
  · intro ps h hbad
    rw [main ps h]
    simp only [to_opts_timeout]
    have : (ps.map fun p => classifyPair p.1 p.2).filterMap Opt.timeoutVal
        = [] := by
      rw [List.filterMap_eq_nil]
      intro a ha
      rcases List.mem_map.mp ha with ⟨p, hp, rfl⟩
      cases hcl : classifyPair p.1 p.2 with
      | timeout n =>
        obtain ⟨-, hu, h1⟩ := classifyPair_eq_timeout _ _ _ hcl
        exact absurd ⟨n, hu, h1⟩ (hbad p hp)
      | blkSize n => simp [Opt.timeoutVal, hcl]
      | tsize n => simp [Opt.timeoutVal, hcl]
      | invalid a b => simp [Opt.timeoutVal, hcl]
    rw [this]
    rfl
  · intro ps h hinv
    rw [main ps h]
    have h1 : (to_opts (ps.map fun p => classifyPair p.1 p.2)).block_size
        = none := by
      rw [to_opts_block_size, List.filterMap_eq_nil.mpr]
      · rfl
      · intro a ha
        rcases List.mem_map.mp ha with ⟨p, hp, rfl⟩
        rw [hinv p hp]
        rfl
    have h2 : (to_opts (ps.map fun p => classifyPair p.1 p.2)).timeout
        = none := by
      rw [to_opts_timeout, List.filterMap_eq_nil.mpr]
      · rfl
      · intro a ha
        rcases List.mem_map.mp ha with ⟨p, hp, rfl⟩
        rw [hinv p hp]
        rfl
    have h3 : (to_opts (ps.map fun p => classifyPair p.1 p.2)).transfer_size
        = none := by
      rw [to_opts_transfer_size, List.filterMap_eq_nil.mpr]
      · rfl
      · intro a ha
        rcases List.mem_map.mp ha with ⟨p, hp, rfl⟩
        rw [hinv p hp]
        rfl
    rcases hto : to_opts (ps.map fun p => classifyPair p.1 p.2) with ⟨a, b, c⟩
    rw [hto] at h1 h2 h3
    simp only [] at h1 h2 h3
    rw [hto, h1, h2, h3]
  · intro ps h
    rw [main ps h]
    exact ⟨to_opts_block_size _, to_opts_timeout _, to_opts_transfer_size _⟩

/-- Witness for C6 at a concrete stream: an out-of-range blksize, a zero
timeout, an unknown name, and two tsize pairs (first occurrence 5,
second 9) parse to transfer_size 5 only. -/
theorem option_parsing_properties_witness :
    parse_opts (pairStream [(blksizeStr, [55]), (timeoutStr, [48]),
        ([120], [49]), (tsizeStr, [53]), (tsizeStr, [57])])
      = ({ transfer_size := some 5 }, []) := by
  have hnf : NulFree [(blksizeStr, [55]), (timeoutStr, [48]),
      ([120], [49]), (tsizeStr, [53]), (tsizeStr, [57])] := by
    intro p hp
    simp only [List.mem_cons, List.not_mem_nil, or_false] at hp
    rcases hp with rfl | rfl | rfl | rfl | rfl <;> exact ⟨by decide, by decide⟩
  have h := option_parsing_properties.1 [(blksizeStr, [55]), (timeoutStr, [48]),
      ([120], [49]), (tsizeStr, [53]), (tsizeStr, [57])] hnf
  rw [h]
  decide

/-- Witness for C5: a 5-byte ACK datagram and an ERROR datagram with a
trailing byte after the message NUL are both rejected. -/
theorem decode_requires_full_consumption_witness :
    parse_packet [0, 4, 0, 9, 97] = none ∧
    parse_packet [0, 5, 0, 8, 109, 115, 103, 0, 109] = none := by
  constructor
  · exact decode_requires_full_consumption.2.1 [0, 4, 0, 9, 97]
      (by decide) (by decide)
  · exact decode_requires_full_consumption.2.2 0 8 [109, 115, 103] [109]
      (by decide) (by decide)

/-!
## The protocol engines of src/server/read_req.rs and src/server/write_req.rs

The `server/` snapshot's own packet module is not under src/, so the
engines below are modelled at packet level: an `Srv.Packet` value stands
for the encoded datagram bytes (`send_window` re-sends the same
pre-encoded buffers, hence re-sending the same `Srv.Packet` value models
"identical datagram").  UDP receive is an environment: one list of
arriving `(sender, packet)` datagrams per `recv` call; an exhausted list
is a `TimedOut` of `io_timeout` (src/utils.rs).  The async reader is a
stream of chunks, one chunk per `read` call; an empty chunk is a 0
return (EOF).
-/

namespace Srv

/-- u16 `wrapping_add`. -/
def wadd (a b : Nat) : Nat := (a + b) % 65536

/-- u16 wrapping subtraction (exact for arguments below 2^16). -/
def u16sub (a b : Nat) : Nat := (a + 65536 - b) % 65536

/-- The option record of the windowed snapshot (adds `window_size: u16`
to the three fields of src/packet.rs). -/
structure Opts where
  block_size : Option Nat := none
  timeout : Option Nat := none
  transfer_size : Option Nat := none
  window_size : Option Nat := none
deriving DecidableEq, Repr

/-- Modelled from the spec: the protocol error kinds of §3 (the
`TftpError` enum of the snapshot's packet module is not under src/). -/
inductive TftpError
  | undefined
  | fileNotFound
  | permissionDenied
  | diskFull
  | illegalOperation
  | unknownTransferId
  | fileAlreadyExists
  | noSuchUser
  | optionNegotiationFailed
deriving DecidableEq, Repr

/-- Modelled from the spec: `is_client_error` holds for the client-sent
ERROR that aborts a session cleanly, which per §4.3/§7 is
`OptionNegotiationFailed`. -/
def TftpError.is_client_error : TftpError → Bool
  | .optionNegotiationFailed => true
  | _ => false

/-- Packet-level view of a datagram as the engines see it. -/
inductive Packet
  | data (block : Nat) (payload : List Nat)
  | ack (block : Nat)
  | oack (opts : Opts)
  | error (e : TftpError)
deriving DecidableEq, Repr

/-- The request as the engines consume it (`mode` is irrelevant to the
data path). -/
structure RwReq where
  filename : List Nat := []
  opts : Opts := {}
deriving DecidableEq, Repr

/-- `ServerConfig` of src/server/server.rs line 33 together with the two
window fields consumed by src/server/read_req.rs `build_oack_opts`. -/
structure ServerConfig where
  timeout : Nat := 3
  block_size_limit : Option Nat := none
  max_send_retries : Nat := 100
  ignore_client_timeout : Bool := false
  ignore_client_block_size : Bool := false
  ignore_client_window_size : Bool := false
  window_size_limit : Option Nat := none
deriving Repr

def DEFAULT_BLOCK_SIZE : Nat := 512

/-- Observable events of a session: datagrams sent to the peer, reads
from the handler's reader, writes to the handler's writer. -/
inductive Event
  | sent (p : Packet)
  | read (bytes : List Nat)
  | wrote (bytes : List Nat)
deriving DecidableEq, Repr

/-- Datagram arrivals, one inner list per `recv` call within one
`io_timeout` window. -/
abbrev Env : Type := List (List (Nat × Packet))

def popEnv : Env → List (Nat × Packet) × Env
  | [] => ([], [])
  | w :: ws => (w, ws)

/-- Session errors relevant to the engines (`Error` of src/error.rs in
the engine snapshot): a typed packet error from the peer or
`MaxSendRetriesReached`; `fuel` is a modelling artifact for running out
of loop fuel and is never reached in the theorems below. -/
inductive Err
  | pkt (e : TftpError)
  | maxRetries (peer block : Nat)
  | fuel
deriving DecidableEq, Repr

inductive RecvErr
  | timedOut
  | pkt (e : TftpError)
deriving DecidableEq, Repr

namespace ReadReq

/-- The sequence of `opts` mutations of `build_oack_opts` in
src/server/read_req.rs lines 291-328 (before its final emptiness
check). -/
def build_oack_opts_core (config : ServerConfig) (req : RwReq)
    (file_size : Option Nat) : Opts :=
  let opts : Opts := {}
  let opts := if config.ignore_client_block_size then opts else
    { opts with block_size :=
        match req.opts.block_size, config.block_size_limit with
        | some bsize, some limit => some (min bsize limit)
        | some bsize, none => some bsize
        | _, _ => none }
  let opts := if config.ignore_client_timeout then opts else
    { opts with timeout := req.opts.timeout }
  let opts := match req.opts.transfer_size, file_size with
    | some 0, some fs => { opts with transfer_size := some fs }
    | _, _ => opts
  let opts := if config.ignore_client_window_size then opts else
    { opts with window_size :=
        match req.opts.window_size, config.window_size_limit with
        | some wsize, some limit => some (min wsize limit)
        | some wsize, none => some wsize
        | _, _ => none }
  opts

/-- `build_oack_opts` of src/server/read_req.rs lines 291-328. -/
def build_oack_opts (config : ServerConfig) (req : RwReq)
    (file_size : Option Nat) : Option Opts :=
  if build_oack_opts_core config req file_size = {} then none
  else some (build_oack_opts_core config req file_size)

/-- Block size derived in `ReadRequest::init`. -/
def init_block_size (oack_opts : Option Opts) : Nat :=
  (oack_opts.bind (·.block_size)).getD DEFAULT_BLOCK_SIZE

/-- Window size derived in `ReadRequest::init` (default 1, rfc7440). -/
def init_window_size (oack_opts : Option Opts) : Nat :=
  (oack_opts.bind (·.window_size)).getD 1

/-- Timeout derived in `ReadRequest::init` (client seconds, else the
configured timeout). -/
def init_timeout (oack_opts : Option Opts) (config : ServerConfig) : Nat :=
  (oack_opts.bind (·.timeout)).getD config.timeout

/-- `ReadRequest::read_block`: call the reader until the buffer of
`cap` bytes is full or a read returns 0. -/
def read_block (chunks : List (List Nat)) (cap : Nat) :
    List Nat × List (List Nat) :=
  if cap = 0 then ([], chunks)
  else
    match chunks with
    | [] => ([], [])
    | c :: cs =>
      if c.isEmpty then ([], cs)
      else if c.length < cap then
        let (b, rest) := read_block cs (cap - c.length)
        (c ++ b, rest)
      else if c.length = cap then (c, cs)
      else (c.take cap, c.drop cap :: cs)

/-- `ReadRequest::fill_data_block`: a DATA packet for `block_id` whose
payload is the next `block_size` bytes; the block is terminal when the
payload is short. -/
def fill_data_block (block_size : Nat) (chunks : List (List Nat))
    (block_id : Nat) : List Event × Packet × Bool × List (List Nat) :=
  let (bytes, chunks') := read_block chunks block_size
  ([.read bytes], .data block_id bytes,
    decide (bytes.length < block_size), chunks')

/-- `ReadRequest::recv_ack` (lines 218-275): scan arrivals within one
timeout window; wrong peers and non-ACK packets are skipped, a client
error is passed through, an in-window ACK yields the number of blocks it
acknowledges, and exhaustion is `TimedOut`. -/
def recv_ack (peer base len : Nat) : List (Nat × Packet) → Except RecvErr Nat
  | [] => .error .timedOut
  | (addr, p) :: rest =>
    if addr ≠ peer then recv_ack peer base len rest
    else
      match p with
      | .ack id =>
        let window_end := wadd base len
        if window_end > base then
          if base ≤ id ∧ id < window_end then .ok (u16sub id base + 1)
          else recv_ack peer base len rest
        else
          if id ≥ base then .ok (1 + u16sub id base)
          else if id < window_end then .ok (1 + id + u16sub len window_end)
          else recv_ack peer base len rest
      | .error e =>
        if e.is_client_error then .error (.pkt e)
        else recv_ack peer base len rest
      | _ => recv_ack peer base len rest

/-- The `for _ in 0..=max_send_retries` loop of
`ReadRequest::send_window` (lines 178-215): send every packet of the
window, await an acknowledgement, retry on timeout. -/
def send_window_go (peer : Nat) (window : List Packet) (base : Nat) :
    Nat → Env → List Event × Env × Except Err Nat
  | 0, env => ([], env, .error (.maxRetries peer base))
  | tries + 1, env =>
    let (w, env') := popEnv env
    let sends := window.map Event.sent
    match recv_ack peer base (window.length % 65536) w with
    | .ok n => (sends, env', .ok n)
    | .error .timedOut =>
      let (evs, env'', r) := send_window_go peer window base tries env'
      (sends ++ evs, env'', r)
    | .error (.pkt e) => (sends, env', .error (.pkt e))

/-- `ReadRequest::send_window`: at most `max_send_retries + 1` attempts,
then `MaxSendRetriesReached`. -/
def send_window (peer retries : Nat) (window : List Packet) (base : Nat)
    (env : Env) : List Event × Env × Except Err Nat :=
  send_window_go peer window base (retries + 1) env

/-- The inner `while !is_last_block && window.len() < window_size` of
`ReadRequest::try_handle`: fill the window with fresh DATA blocks. -/
def fill_window (block_size : Nat) : List (List Nat) → Nat → Nat → Bool →
    List Event × List Packet × Bool × List (List Nat)
  | chunks, _, 0, is_last => ([], [], is_last, chunks)
  | chunks, block_id, room + 1, is_last =>
    if is_last then ([], [], is_last, chunks)
    else
      let (evs, pkt, last', chunks') := fill_data_block block_size chunks block_id
      let (evs2, pkts, last'', chunks'') :=
        fill_window block_size chunks' (wadd block_id 1) room last'
      (evs ++ evs2, pkt :: pkts, last'', chunks'')

/-- The main `loop` of `ReadRequest::try_handle` (lines 123-148),
parameterised by fuel (the loop itself is unbounded). -/
def rrq_loop (peer retries block_size ws : Nat) :
    Nat → List (List Nat) → List Packet → Nat → Bool → Env →
    List Event × Except Err Unit
  | 0, _, _, _, _, _ => ([], .error .fuel)
  | fuel + 1, chunks, window, base, is_last, env =>
    let block_id := wadd base (window.length % 65536)
    let (evF, newPkts, is_last', chunks') :=
      fill_window block_size chunks block_id (ws - window.length) is_last
    let window' := window ++ newPkts
    let (evS, env', r) := send_window peer retries window' base env
    match r with
    | .error e => (evF ++ evS, .error e)
    | .ok acked =>
      let base' := wadd base acked
      let window'' := window'.drop acked
      if is_last' ∧ window'' = [] then (evF ++ evS, .ok ())
      else
        let (evL, r') :=
          rrq_loop peer retries block_size ws fuel chunks' window'' base'
            is_last' env'
        (evF ++ evS ++ evL, r')

/-- `ReadRequest::try_handle` (lines 97-152): optional OACK handshake
(reading the first block beforehand unless the request is a transfer
size probe), then the windowed DATA loop starting at block id 1. -/
def try_handle (peer retries block_size ws : Nat) (oack_opts : Option Opts)
    (chunks : List (List Nat)) (env : Env) (fuel : Nat) :
    List Event × Except Err Unit :=
  match oack_opts with
  | some opts =>
    let (evF, window₀, last₀, chunks₀) :=
      if opts.transfer_size = none then
        let (e, p, l, c) := fill_data_block block_size chunks 1
        (e, [p], l, c)
      else ([], [], false, chunks)
    let (evO, env', r) := send_window peer retries [.oack opts] 0 env
    match r with
    | .error e => (evF ++ evO, .error e)
    | .ok _ =>
      let (evL, r') :=
        rrq_loop peer retries block_size ws fuel chunks₀ window₀ 1 last₀ env'
      (evF ++ evO ++ evL, r')
  | none =>
    rrq_loop peer retries block_size ws fuel chunks [] 1 false env

/-- Modelled from the spec: the `From<Error>` packet-error mapping of §7
(the packet module of this snapshot is not under src/); the claims below
depend only on an ERROR packet being produced, not on its code. -/
def errPacket : Err → TftpError
  | .pkt e => e
  | .maxRetries _ _ => .undefined
  | .fuel => .undefined

/-- `ReadRequest::handle` (lines 77-95): on failure other than the
client's `OptionNegotiationFailed` abort, a single best-effort ERROR
datagram is sent to the peer. -/
def handle (peer retries block_size ws : Nat) (oack_opts : Option Opts)
    (chunks : List (List Nat)) (env : Env) (fuel : Nat) : List Event :=
  match try_handle peer retries block_size ws oack_opts chunks env fuel with
  | (evs, .ok _) => evs
  | (evs, .error (.pkt .optionNegotiationFailed)) => evs
  | (evs, .error e) => evs ++ [.sent (.error (errPacket e))]

end ReadReq

end Srv

namespace Srv

namespace ReadReq

/-- Bytes the reader can deliver before it first returns 0. -/
def bytesUntilZero : List (List Nat) → Nat
  | [] => 0
  | c :: cs => if c.isEmpty then 0 else c.length + bytesUntilZero cs

/-- The byte stream the reader delivers before it first returns 0. -/
def flattenUntilZero : List (List Nat) → List Nat
  | [] => []
  | c :: cs => if c.isEmpty then [] else c ++ flattenUntilZero cs

theorem flattenUntilZero_length (chunks : List (List Nat)) :
    (flattenUntilZero chunks).length = bytesUntilZero chunks := by
  induction chunks with
  | nil => rfl
  | cons c cs ih =>
    simp only [flattenUntilZero, bytesUntilZero]
    split
    · rfl
    · simp [ih]

theorem read_block_bytes (chunks : List (List Nat)) (cap : Nat) :
    (read_block chunks cap).1 = (flattenUntilZero chunks).take cap := by
  induction chunks generalizing cap with
  | nil =>
    rw [read_block]
    split
    · simp_all
    · simp [flattenUntilZero]
  | cons c cs ih =>
    rw [read_block]
    by_cases hc : cap = 0
    · simp [hc]
    · rw [if_neg hc]
      by_cases he : c.isEmpty
      · simp [he, flattenUntilZero]
      · simp only [Bool.not_eq_true] at he
        rw [flattenUntilZero]
        simp only [he, Bool.false_eq_true, if_false]
        by_cases hlt : c.length < cap
        · simp only [hlt, if_true]
          rw [ih (cap - c.length), List.take_append_eq_append_take]
          congr 1
          exact (List.take_of_length_le (by omega)).symm
        · simp only [hlt, if_false]
          by_cases heq : c.length = cap
          · simp only [heq, if_true]
            rw [List.take_append_eq_append_take, heq]
            simp
            omega
          · simp only [heq, if_false]
            rw [List.take_append_eq_append_take]
            have h0 : cap - c.length = 0 := by omega
            simp [h0]

theorem read_block_length (chunks : List (List Nat)) (cap : Nat) :
    (read_block chunks cap).1.length = min cap (bytesUntilZero chunks) := by
  rw [read_block_bytes, List.length_take, flattenUntilZero_length]

end ReadReq

end Srv

/-- C10: `ReadRequest::read_block` keeps calling the reader until it has
exactly `cap` bytes or a read returns 0: the bytes obtained are the
first `cap` bytes the reader can deliver regardless of chunking (short
reads mid-stream never terminate a block early), the payload length is
`min cap available`, and `fill_data_block` marks a block terminal
exactly when the reader was exhausted before `block_size` bytes. -/
theorem read_block_accumulates (chunks : List (List Nat)) (cap bs id : Nat) :
    (Srv.ReadReq.read_block chunks cap).1
        = (Srv.ReadReq.flattenUntilZero chunks).take cap ∧
    (Srv.ReadReq.read_block chunks cap).1.length
        = min cap (Srv.ReadReq.bytesUntilZero chunks) ∧
    (Srv.ReadReq.fill_data_block bs chunks id).2.1
        = .data id ((Srv.ReadReq.flattenUntilZero chunks).take bs) ∧
    ((Srv.ReadReq.fill_data_block bs chunks id).2.2.1 = true
        ↔ Srv.ReadReq.bytesUntilZero chunks < bs) := by
  refine ⟨Srv.ReadReq.read_block_bytes chunks cap,
    Srv.ReadReq.read_block_length chunks cap, ?_, ?_⟩
  · rcases he : Srv.ReadReq.read_block chunks bs with ⟨bytes, rest⟩
    have hb := Srv.ReadReq.read_block_bytes chunks bs
    rw [he] at hb
    simp only at hb
    simp only [Srv.ReadReq.fill_data_block, he, hb]
  · rcases he : Srv.ReadReq.read_block chunks bs with ⟨bytes, rest⟩
    have hl := Srv.ReadReq.read_block_length chunks bs
    rw [he] at hl
    simp only at hl
    simp only [Srv.ReadReq.fill_data_block, he, decide_eq_true_eq, hl]
    omega

namespace Srv

namespace ReadReq

/-- The DATA payload sequence for a file at a given block size: full
blocks followed by one final short block (empty when the file size is a
multiple of the block size, and a single empty block for an empty
file). -/
def dataChunks (bs : Nat) (file : List Nat) : List (List Nat) :=
  if _h : bs = 0 ∨ file.length < bs then [file]
  else file.take bs :: dataChunks bs (file.drop bs)
termination_by file.length
decreasing_by simp only [List.length_drop]; omega

theorem dataChunks_ne_nil (bs : Nat) (file : List Nat) :
    dataChunks bs file ≠ [] := by
  rw [dataChunks]
  split <;> simp

theorem dataChunks_single (bs : Nat) (file : List Nat)
    (h : file.length < bs) : dataChunks bs file = [file] := by
  rw [dataChunks, dif_pos (Or.inr h)]

theorem dataChunks_cons (bs : Nat) (file : List Nat) (h1 : 1 ≤ bs)
    (h2 : bs ≤ file.length) :
    dataChunks bs file = file.take bs :: dataChunks bs (file.drop bs) := by
  rw [dataChunks, dif_neg (by omega)]

/-- A client that acknowledges every block promptly: one arrival window
per block, carrying the ACK of that block's id. -/
def rrqAcks (peer : Nat) : Nat → List (List Nat) → Env
  | _, [] => []
  | b, _ :: cs => [(peer, Packet.ack b)] :: rrqAcks peer (wadd b 1) cs

/-- The expected event trace of a stop-and-wait run: read a block, send
its DATA, block ids advancing by wrapping increments. -/
def rrqTrace : Nat → List (List Nat) → List Event
  | _, [] => []
  | b, c :: cs => .read c :: .sent (.data b c) :: rrqTrace (wadd b 1) cs

/-- Block ids of the DATA datagrams of a trace, in order. -/
def sentDataIds (evs : List Event) : List Nat :=
  evs.filterMap fun e =>
    match e with
    | .sent (.data i _) => some i
    | _ => none

/-- Payloads of the DATA datagrams of a trace, in order. -/
def sentDataPayloads (evs : List Event) : List (List Nat) :=
  evs.filterMap fun e =>
    match e with
    | .sent (.data _ pl) => some pl
    | _ => none

theorem recv_ack_self (peer b : Nat) (hb : b < 65536) :
    recv_ack peer b 1 [(peer, .ack b)] = .ok 1 := by
  simp only [recv_ack, wadd, u16sub]
  rw [if_neg (by simp)]
  have hsub : (b + 65536 - b) % 65536 = 0 := by omega
  by_cases hb' : b < 65535
  · have h1 : (b + 1) % 65536 = b + 1 := Nat.mod_eq_of_lt (by omega)
    rw [h1, if_pos (by omega), if_pos ⟨le_refl b, by omega⟩, hsub]
  · have hb65 : b = 65535 := by omega
    subst hb65
    norm_num

/-- `send_window` with a single-packet window that is acknowledged in
the first arrival window: one send, one block acked. -/
theorem send_window_ack (peer retries b : Nat) (hb : b < 65536)
    (pkt : Packet) (env : Env) :
    send_window peer retries [pkt] b ([(peer, .ack b)] :: env)
      = ([.sent pkt], env, .ok 1) := by
  unfold send_window send_window_go popEnv
  simp [recv_ack_self peer b hb]

theorem fill_window_one (bs b : Nat) (rs : List (List Nat)) :
    fill_window bs rs b 1 false
      = ([.read (read_block rs bs).1], [.data b (read_block rs bs).1],
         decide ((read_block rs bs).1.length < bs), (read_block rs bs).2) := by
  rcases hr : read_block rs bs with ⟨bytes, rest⟩
  simp [fill_window, fill_data_block, hr]

/-- `read_block` on the reader states reachable in a single-chunk
stop-and-wait run. -/
theorem read_block_file (bs : Nat) (hbs : 1 ≤ bs) (file : List Nat)
    (rs : List (List Nat)) (hrs : rs = [file] ∨ (file = [] ∧ rs = [])) :
    read_block rs bs
      = (file.take bs,
         if file.length ≤ bs then ([] : List (List Nat))
         else [file.drop bs]) := by
  rcases hrs with rfl | ⟨rfl, rfl⟩
  · rw [read_block, if_neg (by omega)]
    cases file with
    | nil => simp
    | cons x xs =>
      have hne : ¬((x :: xs).isEmpty = true) := by simp
      simp only [hne, if_false]
      by_cases hlt : (x :: xs).length < bs
      · simp only [hlt, if_true]
        rw [read_block]
        have hle : (x :: xs).length ≤ bs := by omega
        simp_all [List.take_of_length_le hle]
      · simp only [hlt, if_false]
        by_cases heq : (x :: xs).length = bs
        · simp only [heq, if_true]
          rw [List.take_of_length_le (by omega)]
          simp [heq]
        · simp only [heq, if_false]
          have hgt : ¬(xs.length + 1 ≤ bs) := by
            simp only [List.length_cons] at hlt heq
            omega
          simp [hgt]
  · rw [read_block, if_neg (by omega)]
    simp

end ReadReq

end Srv

namespace Srv

namespace ReadReq

/-- Stop-and-wait run of the main loop: with window size 1 and a client
acknowledging every block, the loop reads and sends one DATA per chunk,
with wrapping block ids, and terminates successfully after the short
block. -/
theorem rrq_loop_run (peer retries bs : Nat) (hbs : 1 ≤ bs) :
    ∀ (fuel : Nat) (file : List Nat) (rs : List (List Nat)) (b : Nat)
      (env' : Env),
      (rs = [file] ∨ (file = [] ∧ rs = [])) → b < 65536 →
      (dataChunks bs file).length ≤ fuel →
      rrq_loop peer retries bs 1 fuel rs [] b false
          (rrqAcks peer b (dataChunks bs file) ++ env')
        = (rrqTrace b (dataChunks bs file), .ok ()) := by
  intro fuel
  induction fuel with
  | zero =>
    intro file rs b env' _ _ hlen
    exfalso
    cases hdc : dataChunks bs file with
    | nil => exact dataChunks_ne_nil bs file hdc
    | cons c cs => rw [hdc] at hlen; simp at hlen
  | succ fuel ih =>
    intro file rs b env' hrs hb hlen
    have hread := read_block_file bs hbs file rs hrs
    have hb0 : wadd b 0 = b := by
      simp [wadd, Nat.mod_eq_of_lt hb]
    have hfw := fill_window_one bs b rs
    rw [hread] at hfw
    simp only at hfw
    rcases Nat.lt_or_ge file.length bs with hsmall | hbig
    · have hdc : dataChunks bs file = [file] := dataChunks_single bs file hsmall
      have htake : file.take bs = file := List.take_of_length_le (by omega)
      have hif : (if file.length ≤ bs then ([] : List (List Nat))
          else [file.drop bs]) = [] := by rw [if_pos (by omega)]
      rw [htake, hif] at hfw
      have hlast : decide (file.length < bs) = true := by simp [hsmall]
      rw [hlast] at hfw
      rw [rrq_loop, hdc]
      simp only [List.length_nil, Nat.zero_mod, hb0, Nat.sub_zero, hfw,
        List.nil_append]
      rw [show rrqAcks peer b [file] = [[(peer, Packet.ack b)]] from rfl]
      simp only [List.cons_append, List.nil_append,
        send_window_ack peer retries b hb (Packet.data b file) env']
      simp [rrqTrace]
    · have hdc : dataChunks bs file
          = file.take bs :: dataChunks bs (file.drop bs) :=
        dataChunks_cons bs file hbs hbig
      have hlast : decide ((file.take bs).length < bs) = false := by
        simp [List.length_take]
        omega
      have hlt : (file.take bs).length = bs := by
        simp [List.length_take]
        omega
      rw [hlt] at hfw
      have hlast' : decide (bs < bs) = false := by simp
      rw [hlast'] at hfw
      rw [rrq_loop, hdc]
      simp only [List.length_nil, Nat.zero_mod, hb0, Nat.sub_zero, hfw,
        List.nil_append]
      rw [show rrqAcks peer b (file.take bs :: dataChunks bs (file.drop bs))
          = [(peer, Packet.ack b)]
            :: rrqAcks peer (wadd b 1) (dataChunks bs (file.drop bs)) from rfl]
      simp only [List.cons_append,
        send_window_ack peer retries b hb (Packet.data b (file.take bs))
          (rrqAcks peer (wadd b 1) (dataChunks bs (file.drop bs)) ++ env')]
      have hih := ih (file.drop bs)
        (if file.length ≤ bs then ([] : List (List Nat)) else [file.drop bs])
        (wadd b 1)
        env'
        (by
          by_cases hle : file.length ≤ bs
          · right
            constructor
            · rw [List.drop_eq_nil_iff]
              omega
            · rw [if_pos hle]
          · left
            rw [if_neg hle])
        (by unfold wadd; omega)
        (by
          rw [hdc] at hlen
          simp at hlen
          omega)
      simp only [List.drop_one, List.tail_cons, Bool.false_eq_true,
        false_and, if_false]
      rw [hih]
      simp [rrqTrace]

end ReadReq

end Srv

namespace Srv

namespace ReadReq

theorem dataChunks_length (bs : Nat) (hbs : 1 ≤ bs) (file : List Nat) :
    (dataChunks bs file).length = file.length / bs + 1 := by
  suffices H : ∀ (n : Nat) (f : List Nat), f.length = n →
      (dataChunks bs f).length = f.length / bs + 1 from H file.length file rfl
  intro n
  induction n using Nat.strong_induction_on with
  | _ n ih =>
    intro file hn
    subst hn
    by_cases h : file.length < bs
    · rw [dataChunks_single bs file h, Nat.div_eq_of_lt h]
      simp
    · rw [dataChunks_cons bs file hbs (by omega)]
      simp only [List.length_cons]
      rw [ih (file.drop bs).length (by simp; omega) (file.drop bs) rfl]
      rw [List.length_drop]
      have hdiv : file.length / bs = (file.length - bs) / bs + 1 :=
        Nat.div_eq_sub_div (by omega) (by omega)
      omega

theorem dataChunks_dropLast_full (bs : Nat) (hbs : 1 ≤ bs) (file : List Nat) :
    ∀ c ∈ (dataChunks bs file).dropLast, c.length = bs := by
  suffices H : ∀ (n : Nat) (f : List Nat), f.length = n →
      ∀ c ∈ (dataChunks bs f).dropLast, c.length = bs from H file.length file rfl
  intro n
  induction n using Nat.strong_induction_on with
  | _ n ih =>
    intro file hn
    subst hn
    by_cases h : file.length < bs
    · rw [dataChunks_single bs file h]
      simp
    · rw [dataChunks_cons bs file hbs (by omega)]
      intro c hc
      rw [List.dropLast_cons_of_ne_nil (dataChunks_ne_nil bs _)] at hc
      rcases List.mem_cons.mp hc with rfl | hc
      · simp [List.length_take]
        omega
      · exact ih (file.drop bs).length (by simp; omega) (file.drop bs) rfl c hc

theorem dataChunks_getLast (bs : Nat) (hbs : 1 ≤ bs) (file : List Nat) :
    (dataChunks bs file).getLast?.map List.length = some (file.length % bs) := by
  suffices H : ∀ (n : Nat) (f : List Nat), f.length = n →
      (dataChunks bs f).getLast?.map List.length = some (f.length % bs) from
    H file.length file rfl
  intro n
  induction n using Nat.strong_induction_on with
  | _ n ih =>
    intro file hn
    subst hn
    by_cases h : file.length < bs
    · rw [dataChunks_single bs file h]
      simp [Nat.mod_eq_of_lt h]
    · rw [dataChunks_cons bs file hbs (by omega)]
      have hih := ih (file.drop bs).length (by simp; omega) (file.drop bs) rfl
      cases hdc2 : dataChunks bs (file.drop bs) with
      | nil => exact absurd hdc2 (dataChunks_ne_nil bs _)
      | cons d ds =>
        rw [hdc2] at hih
        rw [List.getLast?_cons_cons, hih, List.length_drop]
        rw [← Nat.mod_eq_sub_mod (by omega)]

theorem rrqTrace_ids (l : List (List Nat)) : ∀ b, b < 65536 →
    sentDataIds (rrqTrace b l)
      = (List.range l.length).map (fun i => (b + i) % 65536) := by
  induction l with
  | nil => intro b _; simp [rrqTrace, sentDataIds]
  | cons c cs ih =>
    intro b hb
    rw [rrqTrace]
    simp only [sentDataIds, List.filterMap_cons]
    have hih := ih (wadd b 1) (by unfold wadd; omega)
    simp only [sentDataIds, List.filterMap_cons] at hih ⊢
    rw [hih]
    simp only [List.length_cons, List.range_succ_eq_map, List.map_cons,
      List.map_map]
    congr 1
    · omega
    · apply List.map_congr_left
      intro i _
      simp only [Function.comp_apply]
      unfold wadd
      omega

theorem rrqTrace_payloads (l : List (List Nat)) : ∀ b,
    sentDataPayloads (rrqTrace b l) = l := by
  induction l with
  | nil => intro b; simp [rrqTrace, sentDataPayloads]
  | cons c cs ih =>
    intro b
    rw [rrqTrace]
    have hih := ih (wadd b 1)
    simp only [sentDataPayloads, List.filterMap_cons] at hih ⊢
    rw [hih]

end ReadReq

end Srv

/-- C7: in the stop-and-wait read-request data loop (window size 1, the
default when the client negotiates no windowsize), the engine sends one
DATA per chunk of the file: the i-th DATA (0-based) carries block id
`(1 + i) % 2^16` — the first is 1, each subsequent one is the previous
plus 1 wrapping at 2^16 with no reset — with payload the i-th chunk; the
run terminates successfully right after the short chunk is acknowledged;
there are `len/bs + 1` chunks, all non-final chunks are exactly `bs`
bytes and the final one is `len % bs` bytes (hence a file of exactly
`k*bs` bytes ends with an empty DATA(k+1), and an empty file is served
as a single empty DATA(1)). -/
theorem rrq_data_block_sequencing (peer retries bs fuel : Nat)
    (file : List Nat) (hbs : 1 ≤ bs)
    (hfuel : (Srv.ReadReq.dataChunks bs file).length ≤ fuel) :
    Srv.ReadReq.try_handle peer retries bs 1 none [file]
        (Srv.ReadReq.rrqAcks peer 1 (Srv.ReadReq.dataChunks bs file)) fuel
      = (Srv.ReadReq.rrqTrace 1 (Srv.ReadReq.dataChunks bs file), .ok ()) ∧
    Srv.ReadReq.sentDataIds
        (Srv.ReadReq.rrqTrace 1 (Srv.ReadReq.dataChunks bs file))
      = (List.range (Srv.ReadReq.dataChunks bs file).length).map
          (fun i => (1 + i) % 65536) ∧
    Srv.ReadReq.sentDataPayloads
        (Srv.ReadReq.rrqTrace 1 (Srv.ReadReq.dataChunks bs file))
      = Srv.ReadReq.dataChunks bs file ∧
    (Srv.ReadReq.dataChunks bs file).length = file.length / bs + 1 ∧
    (∀ c ∈ (Srv.ReadReq.dataChunks bs file).dropLast, c.length = bs) ∧
    (Srv.ReadReq.dataChunks bs file).getLast?.map List.length
      = some (file.length % bs) ∧
    Srv.ReadReq.dataChunks bs [] = [[]] := by
  refine ⟨?_, Srv.ReadReq.rrqTrace_ids _ 1 (by omega),
    Srv.ReadReq.rrqTrace_payloads _ 1,
    Srv.ReadReq.dataChunks_length bs hbs file,
    Srv.ReadReq.dataChunks_dropLast_full bs hbs file,
    Srv.ReadReq.dataChunks_getLast bs hbs file,
    Srv.ReadReq.dataChunks_single bs [] (by simp; omega)⟩
  show Srv.ReadReq.try_handle _ _ _ _ none _ _ _ = _
  rw [Srv.ReadReq.try_handle]
  rw [show Srv.ReadReq.rrqAcks peer 1 (Srv.ReadReq.dataChunks bs file)
      = Srv.ReadReq.rrqAcks peer 1 (Srv.ReadReq.dataChunks bs file) ++ []
    from (List.append_nil _).symm]
  exact Srv.ReadReq.rrq_loop_run peer retries bs hbs fuel file [file] 1 []
    (Or.inl rfl) (by omega) hfuel

/-- Witness for C7: a 3-byte file at block size 2 is served as DATA(1)
of 2 bytes then DATA(2) of 1 byte. -/
theorem rrq_data_block_sequencing_witness :
    Srv.ReadReq.try_handle 7 0 2 1 none [[10, 20, 30]]
        (Srv.ReadReq.rrqAcks 7 1 (Srv.ReadReq.dataChunks 2 [10, 20, 30])) 3
      = (Srv.ReadReq.rrqTrace 1 (Srv.ReadReq.dataChunks 2 [10, 20, 30]),
         .ok ()) := by
  have hlen : (Srv.ReadReq.dataChunks 2 [10, 20, 30]).length ≤ 3 := by
    rw [Srv.ReadReq.dataChunks_length 2 (by norm_num) [10, 20, 30]]
    norm_num
  exact (rrq_data_block_sequencing 7 0 2 3 [10, 20, 30] (by norm_num) hlen).1

namespace Srv

namespace ReadReq

theorem send_window_go_timeout (peer : Nat) (window : List Packet)
    (base : Nat) : ∀ (t : Nat) (env' : Env),
    send_window_go peer window base t (List.replicate t [] ++ env')
      = ((List.replicate t (window.map Event.sent)).flatten, env',
         .error (.maxRetries peer base)) := by
  intro t
  induction t with
  | zero => intro env'; simp [send_window_go]
  | succ t ih =>
    intro env'
    rw [List.replicate_succ, List.cons_append, send_window_go]
    simp only [popEnv]
    rw [show recv_ack peer base (window.length % 65536) [] = .error .timedOut
      from rfl]
    simp only []
    rw [ih env']
    simp [List.replicate_succ]

theorem send_window_go_sends (peer : Nat) (window : List Packet)
    (base : Nat) : ∀ (t : Nat) (env : Env), ∃ k ≤ t,
    (send_window_go peer window base t env).1
      = (List.replicate k (window.map Event.sent)).flatten := by
  intro t
  induction t with
  | zero => intro env; exact ⟨0, by omega, by simp [send_window_go]⟩
  | succ t ih =>
    intro env
    rw [send_window_go]
    cases hr : recv_ack peer base (window.length % 65536) (popEnv env).1 with
    | ok n =>
      refine ⟨1, by omega, ?_⟩
      simp [hr]
    | error e =>
      cases e with
      | timedOut =>
        obtain ⟨k, hk, heq⟩ := ih (popEnv env).2
        refine ⟨k + 1, by omega, ?_⟩
        simp only [hr, heq]
        simp [List.replicate_succ]
      | pkt e =>
        refine ⟨1, by omega, ?_⟩
        simp [hr]

/-- A run of the stop-and-wait engine against a peer that never
acknowledges: the first DATA block is sent identically `retries + 1`
times and the session fails with `MaxSendRetriesReached`. -/
theorem rrq_timeout_run (peer retries bs fuel : Nat) (file : List Nat)
    (hbs : 1 ≤ bs) :
    try_handle peer retries bs 1 none [file]
        (List.replicate (retries + 1) []) (fuel + 1)
      = (.read (file.take bs)
          :: (List.replicate (retries + 1)
               [Event.sent (.data 1 (file.take bs))]).flatten,
         .error (.maxRetries peer 1)) := by
  rw [try_handle, rrq_loop]
  have hread := read_block_file bs hbs file [file] (Or.inl rfl)
  have hfw := fill_window_one bs 1 [file]
  rw [hread] at hfw
  simp only at hfw
  have hb0 : wadd 1 0 = 1 := by decide
  have hsw := send_window_go_timeout peer [Packet.data 1 (file.take bs)] 1
    (retries + 1) []
  rw [List.append_nil] at hsw
  simp only [List.length_nil, Nat.zero_mod, hb0, Nat.sub_zero, hfw,
    List.nil_append]
  rw [show send_window peer retries [Packet.data 1 (file.take bs)] 1
      (List.replicate (retries + 1) [])
    = ((List.replicate (retries + 1)
         ([Packet.data 1 (file.take bs)].map Event.sent)).flatten, [],
       .error (.maxRetries peer 1)) from hsw]
  simp

end ReadReq

end Srv

/-- C2 (amended): for every protocol step the read-request engine sends
the identical datagram(s) of the current window at most
`max_send_retries + 1` times — exactly `retries + 1` times when no
matching ACK ever arrives — after which the session terminates with
`MaxSendRetriesReached`; the engine sends no further DATA, but
`ReadRequest::handle` then sends one best-effort ERROR datagram to the
peer (the claim's "no further packet, in particular no ERROR packet"
does not hold on this code; only a client `OptionNegotiationFailed`
abort is silent). -/
theorem retry_exhaustion_behaviour :
    (∀ (peer retries : Nat) (window : List Srv.Packet) (base : Nat)
       (env' : Srv.Env),
       Srv.ReadReq.send_window peer retries window base
           (List.replicate (retries + 1) [] ++ env')
         = ((List.replicate (retries + 1)
              (window.map Srv.Event.sent)).flatten, env',
            .error (.maxRetries peer base))) ∧
    (∀ (peer retries : Nat) (window : List Srv.Packet) (base : Nat)
       (env : Srv.Env), ∃ k ≤ retries + 1,
       (Srv.ReadReq.send_window peer retries window base env).1
         = (List.replicate k (window.map Srv.Event.sent)).flatten) ∧
    (∀ (peer retries bs fuel : Nat) (file : List Nat), 1 ≤ bs →
       Srv.ReadReq.try_handle peer retries bs 1 none [file]
           (List.replicate (retries + 1) []) (fuel + 1)
         = (.read (file.take bs)
             :: (List.replicate (retries + 1)
                  [Srv.Event.sent (.data 1 (file.take bs))]).flatten,
            .error (.maxRetries peer 1))) :=
  ⟨fun peer retries window base env' =>
    Srv.ReadReq.send_window_go_timeout peer window base (retries + 1) env',
   fun peer retries window base env =>
    Srv.ReadReq.send_window_go_sends peer window base (retries + 1) env,
   fun peer retries bs fuel file hbs =>
    Srv.ReadReq.rrq_timeout_run peer retries bs fuel file hbs⟩

/-- Witness for C2 (amended) at a concrete run: a one-block file, zero
configured retries, no ACK ever arrives. -/
theorem retry_exhaustion_behaviour_witness :
    Srv.ReadReq.try_handle 7 0 8 1 none [[]] (List.replicate 1 []) 1
      = ([.read [], .sent (.data 1 [])], .error (.maxRetries 7 1)) :=
  retry_exhaustion_behaviour.2.2 7 0 8 0 [] (by norm_num)

/-- C2 counterexample: after retry exhaustion the engine does emit a
further packet to the peer — `ReadRequest::handle` sends an ERROR
datagram (src/server/read_req.rs lines 77-95), contradicting the
claimed silence. -/
theorem retry_exhaustion_sends_error :
    Srv.ReadReq.handle 7 0 8 1 none [[]] [] 1
      = [.read [], .sent (.data 1 []), .sent (.error .undefined)] := by
  rfl

namespace Srv

namespace ReadReq

theorem send_window_go_head (peer : Nat) (pkt : Packet) (base t : Nat)
    (env : Env) (ht : 1 ≤ t) :
    ∃ tl, (send_window_go peer [pkt] base t env).1 = .sent pkt :: tl := by
  cases t with
  | zero => omega
  | succ t =>
    rw [send_window_go]
    rcases hpe : popEnv env with ⟨w, env2⟩
    simp only [hpe]
    have hlen : ([pkt] : List Packet).length % 65536 = 1 := by simp
    rw [hlen]
    cases hr : recv_ack peer base 1 w with
    | ok n => exact ⟨[], by simp [hr]⟩
    | error e =>
      cases e with
      | timedOut =>
        exact ⟨(send_window_go peer [pkt] base t env2).1, by simp [hr]⟩
      | pkt e => exact ⟨[], by simp [hr]⟩

theorem send_window_head (peer retries : Nat) (pkt : Packet) (base : Nat)
    (env : Env) :
    ∃ tl, (send_window peer retries [pkt] base env).1 = .sent pkt :: tl :=
  send_window_go_head peer pkt base (retries + 1) env (by omega)

theorem send_window_go_events (peer : Nat) (window : List Packet)
    (base : Nat) : ∀ (t : Nat) (env : Env),
    ∀ ev ∈ (send_window_go peer window base t env).1,
      ∃ p ∈ window, ev = .sent p := by
  intro t
  induction t with
  | zero => intro env ev hev; simp [send_window_go] at hev
  | succ t ih =>
    intro env ev hev
    rw [send_window_go] at hev
    rcases hpe : popEnv env with ⟨w, env2⟩
    simp only [hpe] at hev
    cases hr : recv_ack peer base (window.length % 65536) w with
    | ok n =>
      rw [hr] at hev
      simp at hev
      rcases hev with ⟨p, hp, hpe2⟩
      exact ⟨p, hp, hpe2.symm⟩
    | error e =>
      cases e with
      | timedOut =>
        rw [hr] at hev
        simp at hev
        rcases hev with ⟨p, hp, hpe2⟩ | hev
        · exact ⟨p, hp, hpe2.symm⟩
        · exact ih env2 ev hev
      | pkt e =>
        rw [hr] at hev
        simp at hev
        rcases hev with ⟨p, hp, hpe2⟩
        exact ⟨p, hp, hpe2.symm⟩

/-- The acknowledgement awaited after OACK (`send_window` at window base
0, length 1) accepts exactly an ACK with block id 0 from the peer. -/
theorem recv_ack_oack (peer : Nat) : ∀ (w : List (Nat × Packet)) (n : Nat),
    recv_ack peer 0 1 w = .ok n → n = 1 ∧ (peer, Packet.ack 0) ∈ w := by
  intro w
  induction w with
  | nil => intro n h; simp [recv_ack] at h
  | cons a rest ih =>
    intro n h
    obtain ⟨addr, p⟩ := a
    by_cases ha : addr ≠ peer
    · cases p with
      | ack id =>
        rw [recv_ack, if_pos ha] at h
        obtain ⟨hn, hmem⟩ := ih n h
        exact ⟨hn, List.mem_cons_of_mem _ hmem⟩
      | data b pl =>
        rw [recv_ack, if_pos ha] at h
        · obtain ⟨hn, hmem⟩ := ih n h
          exact ⟨hn, List.mem_cons_of_mem _ hmem⟩
        · intro id hx; cases hx
        · intro e hx; cases hx
      | oack o =>
        rw [recv_ack, if_pos ha] at h
        · obtain ⟨hn, hmem⟩ := ih n h
          exact ⟨hn, List.mem_cons_of_mem _ hmem⟩
        · intro id hx; cases hx
        · intro e hx; cases hx
      | error e =>
        rw [recv_ack, if_pos ha] at h
        obtain ⟨hn, hmem⟩ := ih n h
        exact ⟨hn, List.mem_cons_of_mem _ hmem⟩
    · push_neg at ha
      subst ha
      cases p with
      | ack id =>
        rw [recv_ack, if_neg (by simp)] at h
        rw [show wadd 0 1 = 1 from by decide] at h
        rw [if_pos (by omega)] at h
        by_cases hid : 0 ≤ id ∧ id < 1
        · rw [if_pos hid] at h
          have hid0 : id = 0 := by omega
          subst hid0
          refine ⟨?_, List.mem_cons_self _ _⟩
          rw [show u16sub 0 0 + 1 = 1 from by decide] at h
          simp only [Except.ok.injEq] at h
          exact h.symm
        · rw [if_neg hid] at h
          obtain ⟨hn, hmem⟩ := ih n h
          exact ⟨hn, List.mem_cons_of_mem _ hmem⟩
      | data b pl =>
        rw [recv_ack, if_neg (by simp)] at h
        · obtain ⟨hn, hmem⟩ := ih n h
          exact ⟨hn, List.mem_cons_of_mem _ hmem⟩
        · intro id hx; cases hx
        · intro e hx; cases hx
      | oack o =>
        rw [recv_ack, if_neg (by simp)] at h
        · obtain ⟨hn, hmem⟩ := ih n h
          exact ⟨hn, List.mem_cons_of_mem _ hmem⟩
        · intro id hx; cases hx
        · intro e hx; cases hx
      | error e =>
        rw [recv_ack, if_neg (by simp)] at h
        by_cases hc : e.is_client_error
        · rw [if_pos hc] at h
          simp at h
        · rw [if_neg hc] at h
          obtain ⟨hn, hmem⟩ := ih n h
          exact ⟨hn, List.mem_cons_of_mem _ hmem⟩

end ReadReq

end Srv

namespace Srv

namespace ReadReq

theorem try_handle_probe (peer retries bs ws : Nat) (opts : Opts) (s : Nat)
    (chunks : List (List Nat)) (env : Env) (fuel : Nat)
    (hp : opts.transfer_size = some s) :
    ∃ tl r, try_handle peer retries bs ws (some opts) chunks env fuel
      = (Event.sent (.oack opts) :: tl, r) := by
  rw [try_handle]
  have hne : ¬ (opts.transfer_size = none) := by rw [hp]; simp
  simp only [hne, if_false]
  obtain ⟨tl0, htl0⟩ := send_window_head peer retries (.oack opts) 0 env
  rcases hsw : send_window peer retries [.oack opts] 0 env with ⟨evO, env2, r⟩
  rw [hsw] at htl0
  simp only at htl0
  cases r with
  | error e => exact ⟨tl0, .error e, by simp [hsw, htl0]⟩
  | ok n =>
    refine ⟨tl0 ++ (rrq_loop peer retries bs ws fuel chunks [] 1 false env2).1,
      (rrq_loop peer retries bs ws fuel chunks [] 1 false env2).2, ?_⟩
    simp [hsw, htl0]

theorem try_handle_nonprobe (peer retries bs ws : Nat) (opts : Opts)
    (chunks : List (List Nat)) (env : Env) (fuel : Nat)
    (hp : opts.transfer_size = none) :
    ∃ tl r, try_handle peer retries bs ws (some opts) chunks env fuel
      = (Event.read ((flattenUntilZero chunks).take bs)
          :: Event.sent (.oack opts) :: tl, r) := by
  rw [try_handle]
  simp only [hp, if_true]
  have hbytes := read_block_bytes chunks bs
  rcases hfd : read_block chunks bs with ⟨bytes, chunks2⟩
  rw [hfd] at hbytes
  simp only at hbytes
  obtain ⟨tl0, htl0⟩ := send_window_head peer retries (.oack opts) 0 env
  rcases hsw : send_window peer retries [.oack opts] 0 env with ⟨evO, env2, r⟩
  rw [hsw] at htl0
  simp only at htl0
  cases r with
  | error e =>
    exact ⟨tl0, .error e, by simp [fill_data_block, hfd, hsw, htl0, hbytes]⟩
  | ok n =>
    refine ⟨tl0 ++ (rrq_loop peer retries bs ws fuel chunks2
        [.data 1 bytes] 1 (decide (bytes.length < bs)) env2).1,
      (rrq_loop peer retries bs ws fuel chunks2
        [.data 1 bytes] 1 (decide (bytes.length < bs)) env2).2, ?_⟩
    simp [fill_data_block, hfd, hsw, htl0, hbytes]

theorem try_handle_oack_failure (peer retries bs ws : Nat) (opts : Opts)
    (chunks : List (List Nat)) (env : Env) (fuel : Nat) (e : Err)
    (hfail : (send_window peer retries [.oack opts] 0 env).2.2 = .error e) :
    ∀ ev ∈ (try_handle peer retries bs ws (some opts) chunks env fuel).1,
      ev = .sent (.oack opts) ∨ ∃ bts, ev = .read bts := by
  intro ev hev
  rw [try_handle] at hev
  rcases hsw : send_window peer retries [.oack opts] 0 env with ⟨evO, env2, r⟩
  rw [hsw] at hfail
  simp only at hfail
  subst hfail
  have hmem : ∀ ev ∈ evO, ev = Event.sent (Packet.oack opts) := by
    intro ev2 hev2
    have := send_window_go_events peer [.oack opts] 0 (retries + 1) env ev2
      (by rw [show send_window_go peer [Packet.oack opts] 0 (retries + 1) env
            = (evO, env2, .error e) from hsw]; exact hev2)
    rcases this with ⟨p, hp, rfl⟩
    simp at hp
    rw [hp]
  by_cases hp : opts.transfer_size = none
  · simp only [hp, if_true, fill_data_block] at hev
    rcases hfd : read_block chunks bs with ⟨bytes, chunks2⟩
    simp only [hfd] at hev
    simp only [hsw] at hev
    simp at hev
    rcases hev with hev | hev
    · exact Or.inr ⟨bytes, hev⟩
    · exact Or.inl (hmem ev hev)
  · simp only [hp, if_false] at hev
    simp only [hsw] at hev
    simp at hev
    exact Or.inl (hmem ev hev)

end ReadReq

end Srv

/-- C9: with options accepted, for a size probe (the client sent tsize
0, answered in the OACK's transfer_size) the OACK is the very first
event — in particular no byte is read from the reader before it —
whereas for a non-probe OACK the engine first reads the first data block
and only then sends the OACK; the OACK handshake awaits an ACK with
block id 0 (only ACK(0) from the peer is accepted, counting one packet),
and if the OACK is never acknowledged the engine sends OACK datagrams
only — no DATA is ever sent. -/
theorem oack_ordering :
    (∀ (peer retries bs ws : Nat) (opts : Srv.Opts) (s : Nat)
       (chunks : List (List Nat)) (env : Srv.Env) (fuel : Nat),
       opts.transfer_size = some s →
       ∃ tl r, Srv.ReadReq.try_handle peer retries bs ws (some opts) chunks
           env fuel
         = (Srv.Event.sent (.oack opts) :: tl, r)) ∧
    (∀ (peer retries bs ws : Nat) (opts : Srv.Opts)
       (chunks : List (List Nat)) (env : Srv.Env) (fuel : Nat),
       opts.transfer_size = none →
       ∃ tl r, Srv.ReadReq.try_handle peer retries bs ws (some opts) chunks
           env fuel
         = (Srv.Event.read ((Srv.ReadReq.flattenUntilZero chunks).take bs)
             :: Srv.Event.sent (.oack opts) :: tl, r)) ∧
    (∀ (peer : Nat) (w : List (Nat × Srv.Packet)) (n : Nat),
       Srv.ReadReq.recv_ack peer 0 1 w = .ok n →
       n = 1 ∧ (peer, Srv.Packet.ack 0) ∈ w) ∧
    (∀ (peer retries bs ws : Nat) (opts : Srv.Opts)
       (chunks : List (List Nat)) (env : Srv.Env) (fuel : Nat) (e : Srv.Err),
       (Srv.ReadReq.send_window peer retries [.oack opts] 0 env).2.2
           = .error e →
       ∀ ev ∈ (Srv.ReadReq.try_handle peer retries bs ws (some opts) chunks
           env fuel).1,
         ev = .sent (.oack opts) ∨ ∃ bts, ev = .read bts) :=
  ⟨fun peer retries bs ws opts s chunks env fuel hp =>
    Srv.ReadReq.try_handle_probe peer retries bs ws opts s chunks env fuel hp,
   fun peer retries bs ws opts chunks env fuel hp =>
    Srv.ReadReq.try_handle_nonprobe peer retries bs ws opts chunks env fuel hp,
   fun peer w n h => Srv.ReadReq.recv_ack_oack peer w n h,
   fun peer retries bs ws opts chunks env fuel e hf =>
    Srv.ReadReq.try_handle_oack_failure peer retries bs ws opts chunks env
      fuel e hf⟩

/-- Witness for C9 at a concrete size probe: the first event is the
OACK. -/
theorem oack_ordering_witness :
    ∃ tl r, Srv.ReadReq.try_handle 7 1 8 1
        (some { transfer_size := some 4 }) [[1, 2, 3]] [] 2
      = (Srv.Event.sent (.oack { transfer_size := some 4 }) :: tl, r) :=
  oack_ordering.1 7 1 8 1 { transfer_size := some 4 } 4 [[1, 2, 3]] [] 2 rfl

namespace Srv

namespace WriteReq

/-- The sequence of `opts` mutations of `build_oack_opts` in
src/server/write_req.rs lines 164-186 (before its final emptiness
check): block size and timeout as in the read engine, and the client's
`tsize` echoed verbatim. -/
def build_oack_opts_core (config : ServerConfig) (req : RwReq) : Opts :=
  let opts : Opts := {}
  let opts := if config.ignore_client_block_size then opts else
    { opts with block_size :=
        match req.opts.block_size, config.block_size_limit with
        | some bsize, some limit => some (min bsize limit)
        | some bsize, none => some bsize
        | _, _ => none }
  let opts := if config.ignore_client_timeout then opts else
    { opts with timeout := req.opts.timeout }
  let opts := { opts with transfer_size := req.opts.transfer_size }
  opts

/-- `build_oack_opts` of src/server/write_req.rs lines 164-186. -/
def build_oack_opts (config : ServerConfig) (req : RwReq) : Option Opts :=
  if build_oack_opts_core config req = {} then none
  else some (build_oack_opts_core config req)

end WriteReq

/-- The negotiation function as the claim words it, blksize row: drop
the client's `b` when `ignore_client_block_size` is set, else accept
`min(b, block_size_limit)` when the limit is set and `b` verbatim
otherwise. -/
def spec_oack_block_size (config : ServerConfig) (req : RwReq) :
    Option Nat :=
  if config.ignore_client_block_size then none
  else req.opts.block_size.map (fun b =>
    match config.block_size_limit with
    | some limit => min b limit
    | none => b)

/-- The negotiation function as the claim words it, timeout row: the
client's timeout echoed verbatim unless `ignore_client_timeout` is
set. -/
def spec_oack_timeout (config : ServerConfig) (req : RwReq) : Option Nat :=
  if config.ignore_client_timeout then none else req.opts.timeout

/-- The negotiation function as the claim words it, tsize-on-RRQ row: a
`tsize = 0` is answered with the reader's true size when known and
dropped otherwise. -/
def spec_oack_tsize_rrq (req : RwReq) (file_size : Option Nat) :
    Option Nat :=
  if req.opts.transfer_size = some 0 then file_size else none

/-- The spec's windowsize row: analogous to blksize with its own
limit. -/
def spec_oack_window_size (config : ServerConfig) (req : RwReq) :
    Option Nat :=
  if config.ignore_client_window_size then none
  else req.opts.window_size.map (fun w =>
    match config.window_size_limit with
    | some limit => min w limit
    | none => w)

end Srv

namespace Srv

/-- The source's two-scrutinee clamping match, as `Option.map`. -/
theorem opt_clamp_eq (x lim : Option Nat) :
    (match x, lim with
      | some b, some l => some (min b l)
      | some b, none => some b
      | _, _ => none)
      = x.map (fun b =>
          match lim with
          | some l => min b l
          | none => b) := by
  cases x <;> cases lim <;> rfl

namespace ReadReq

/-- The read engine's negotiation is exactly the four spec rows. -/
theorem build_oack_opts_core_eq (config : ServerConfig) (req : RwReq)
    (fs : Option Nat) :
    build_oack_opts_core config req fs
      = { block_size := spec_oack_block_size config req,
          timeout := spec_oack_timeout config req,
          transfer_size := spec_oack_tsize_rrq req fs,
          window_size := spec_oack_window_size config req } := by
  unfold build_oack_opts_core spec_oack_block_size spec_oack_timeout
    spec_oack_tsize_rrq spec_oack_window_size
  rw [opt_clamp_eq req.opts.block_size config.block_size_limit,
    opt_clamp_eq req.opts.window_size config.window_size_limit]
  rcases hts : req.opts.transfer_size with _ | n <;>
  cases hib : config.ignore_client_block_size <;>
  cases hit : config.ignore_client_timeout <;>
  cases hiw : config.ignore_client_window_size <;>
  simp only [hts, hib, hit, hiw, Bool.false_eq_true, if_false, if_true,
    ite_false, ite_true] <;>
  first
  | rfl
  | (rcases hfs : fs with _ | f <;>
     rcases hn : n with _ | m <;>
     simp only [Option.some.injEq, Nat.succ_ne_zero, Nat.add_one_ne_zero,
       if_false, if_true, ite_false, ite_true, reduceIte] <;>
     rfl)

end ReadReq

/-- The write engine's negotiation: blksize and timeout as in the read
engine, the client's `tsize` echoed verbatim, no windowsize. -/
theorem wrq_build_oack_opts_core_eq (config : ServerConfig)
    (req : RwReq) :
    WriteReq.build_oack_opts_core config req
      = { block_size := spec_oack_block_size config req,
          timeout := spec_oack_timeout config req,
          transfer_size := req.opts.transfer_size,
          window_size := none } := by
  cases hib : config.ignore_client_block_size <;>
  cases hit : config.ignore_client_timeout <;>
  rcases hbs : req.opts.block_size with _ | b <;>
  rcases hbl : config.block_size_limit with _ | lim <;>
  simp [WriteReq.build_oack_opts_core, spec_oack_block_size,
    spec_oack_timeout, hib, hit, hbs, hbl]

theorem opts_eq_default_iff (o : Opts) :
    o = {} ↔ o.block_size = none ∧ o.timeout = none
      ∧ o.transfer_size = none ∧ o.window_size = none := by
  cases o with
  | mk a b c d =>
    constructor
    · intro h
      injection h with h1 h2 h3 h4
      exact ⟨h1, h2, h3, h4⟩
    · rintro ⟨rfl, rfl, rfl, rfl⟩
      rfl

end Srv

namespace Srv

namespace ReadReq

/-- An OACK produced by the read engine never holds an option the
client did not send. -/
theorem build_oack_opts_client_sent (config : ServerConfig) (req : RwReq)
    (fs : Option Nat) (opts : Opts)
    (h : build_oack_opts config req fs = some opts) :
    (opts.block_size.isSome → req.opts.block_size.isSome)
    ∧ (opts.timeout.isSome → req.opts.timeout.isSome)
    ∧ (opts.transfer_size.isSome → req.opts.transfer_size = some 0)
    ∧ (opts.window_size.isSome → req.opts.window_size.isSome) := by
  rw [build_oack_opts] at h
  split at h
  · cases h
  · simp only [Option.some.injEq] at h
    subst h
    rw [build_oack_opts_core_eq]
    refine ⟨?_, ?_, ?_, ?_⟩
    · simp only [spec_oack_block_size]
      split
      · simp
      · simp [Option.isSome_map]
    · simp only [spec_oack_timeout]
      split
      · simp
      · exact fun hx => hx
    · simp only [spec_oack_tsize_rrq]
      split
      · intro _
        assumption
      · simp
    · simp only [spec_oack_window_size]
      split
      · simp
      · simp [Option.isSome_map]

/-- The read engine sends no OACK exactly when every spec row is
empty. -/
theorem build_oack_opts_none_iff (config : ServerConfig) (req : RwReq)
    (fs : Option Nat) :
    build_oack_opts config req fs = none
      ↔ spec_oack_block_size config req = none
        ∧ spec_oack_timeout config req = none
        ∧ spec_oack_tsize_rrq req fs = none
        ∧ spec_oack_window_size config req = none := by
  rw [build_oack_opts]
  constructor
  · intro h
    split at h
    · next heq =>
      rw [build_oack_opts_core_eq] at heq
      have := (opts_eq_default_iff _).mp heq
      simpa using this
    · cases h
  · intro hall
    rw [if_pos]
    rw [build_oack_opts_core_eq]
    exact (opts_eq_default_iff _).mpr (by simpa using hall)

end ReadReq

/-- The write engine sends no OACK exactly when blksize and timeout are
dropped and the client sent no `tsize`. -/
theorem wrq_build_oack_opts_none_iff (config : ServerConfig)
    (req : RwReq) :
    WriteReq.build_oack_opts config req = none
      ↔ spec_oack_block_size config req = none
        ∧ spec_oack_timeout config req = none
        ∧ req.opts.transfer_size = none := by
  rw [WriteReq.build_oack_opts]
  constructor
  · intro h
    split at h
    · next heq =>
      rw [wrq_build_oack_opts_core_eq] at heq
      have := (opts_eq_default_iff _).mp heq
      simpa using this
    · cases h
  · intro hall
    rw [if_pos]
    rw [wrq_build_oack_opts_core_eq]
    exact (opts_eq_default_iff _).mpr (by simpa using hall)

end Srv

namespace Srv

namespace ReadReq

/-- Every packet produced by `fill_window` is a DATA packet. -/
theorem fill_window_pkts (bs : Nat) : ∀ (room : Nat)
    (chunks : List (List Nat)) (id : Nat) (last : Bool) (p : Packet),
    p ∈ (fill_window bs chunks id room last).2.1 → ∃ i pl, p = .data i pl := by
  intro room
  induction room with
  | zero =>
    intro chunks id last p hp
    simp [fill_window] at hp
  | succ room ih =>
    intro chunks id last p hp
    cases last with
    | true => simp [fill_window] at hp
    | false =>
      rw [fill_window] at hp
      rcases hrb : read_block chunks bs with ⟨bytes, chunks2⟩
      simp only [Bool.false_eq_true, if_false, fill_data_block, hrb] at hp
      rcases hfw : fill_window bs chunks2 (wadd id 1) room
          (decide (bytes.length < bs)) with ⟨evs2, pkts, last3, chunks3⟩
      simp only [hfw, List.mem_cons] at hp
      rcases hp with rfl | hp
      · exact ⟨id, bytes, rfl⟩
      · exact ih chunks2 (wadd id 1) (decide (bytes.length < bs)) p
          (by rw [hfw]; exact hp)

/-- Every event produced by `fill_window` is a read. -/
theorem fill_window_events (bs : Nat) : ∀ (room : Nat)
    (chunks : List (List Nat)) (id : Nat) (last : Bool) (ev : Event),
    ev ∈ (fill_window bs chunks id room last).1 → ∃ b, ev = .read b := by
  intro room
  induction room with
  | zero =>
    intro chunks id last ev hev
    simp [fill_window] at hev
  | succ room ih =>
    intro chunks id last ev hev
    cases last with
    | true => simp [fill_window] at hev
    | false =>
      rw [fill_window] at hev
      rcases hrb : read_block chunks bs with ⟨bytes, chunks2⟩
      simp only [Bool.false_eq_true, if_false, fill_data_block, hrb] at hev
      rcases hfw : fill_window bs chunks2 (wadd id 1) room
          (decide (bytes.length < bs)) with ⟨evs2, pkts, last3, chunks3⟩
      simp only [hfw, List.cons_append, List.nil_append, List.mem_cons]
        at hev
      rcases hev with rfl | hev
      · exact ⟨bytes, rfl⟩
      · exact ih chunks2 (wadd id 1) (decide (bytes.length < bs)) ev
          (by rw [hfw]; exact hev)

/-- Events of the DATA loop: when the in-flight window holds only DATA
packets, every event is a read or the send of a DATA packet. -/
theorem rrq_loop_events (peer retries bs ws : Nat) : ∀ (fuel : Nat)
    (chunks : List (List Nat)) (window : List Packet) (base : Nat)
    (last : Bool) (env : Env),
    (∀ p ∈ window, ∃ i pl, p = .data i pl) →
    ∀ ev ∈ (rrq_loop peer retries bs ws fuel chunks window base last env).1,
      (∃ b, ev = .read b) ∨ ∃ i pl, ev = .sent (.data i pl) := by
  intro fuel
  induction fuel with
  | zero =>
    intro chunks window base last env hw ev hev
    simp [rrq_loop] at hev
  | succ fuel ih =>
    intro chunks window base last env hw ev hev
    rw [rrq_loop] at hev
    rcases hfw : fill_window bs chunks (wadd base (window.length % 65536))
        (ws - window.length) last with ⟨evF, newPkts, last2, chunks2⟩
    simp only [hfw] at hev
    rcases hsw : send_window peer retries (window ++ newPkts) base env
        with ⟨evS, env2, r⟩
    simp only [hsw] at hev
    have hw2 : ∀ p ∈ window ++ newPkts, ∃ i pl, p = .data i pl := by
      intro p hp
      rcases List.mem_append.mp hp with hp | hp
      · exact hw p hp
      · exact fill_window_pkts bs (ws - window.length) chunks
          (wadd base (window.length % 65536)) last p (by rw [hfw]; exact hp)
    have hF : ∀ ev2 ∈ evF, ∃ b, ev2 = Event.read b := by
      intro ev2 hev2
      exact fill_window_events bs (ws - window.length) chunks
        (wadd base (window.length % 65536)) last ev2 (by rw [hfw]; exact hev2)
    have hS : ∀ ev2 ∈ evS, ∃ i pl, ev2 = Event.sent (.data i pl) := by
      intro ev2 hev2
      have hmem := send_window_go_events peer (window ++ newPkts) base
        (retries + 1) env ev2
        (by rw [show send_window_go peer (window ++ newPkts) base
              (retries + 1) env = (evS, env2, r) from hsw]
            exact hev2)
      rcases hmem with ⟨p, hp, rfl⟩
      rcases hw2 p hp with ⟨i, pl, rfl⟩
      exact ⟨i, pl, rfl⟩
    cases r with
    | error e =>
      simp only [List.mem_append] at hev
      rcases hev with hev | hev
      · exact Or.inl (hF ev hev)
      · exact Or.inr (hS ev hev)
    | ok acked =>
      simp only at hev
      by_cases hterm : last2 = true ∧ (window ++ newPkts).drop acked = []
      · rw [if_pos hterm] at hev
        simp only [List.mem_append] at hev
        rcases hev with hev | hev
        · exact Or.inl (hF ev hev)
        · exact Or.inr (hS ev hev)
      · rw [if_neg hterm] at hev
        rcases hrl : rrq_loop peer retries bs ws fuel chunks2
            ((window ++ newPkts).drop acked) (wadd base acked) last2 env2
          with ⟨evL, r2⟩
        simp only [hrl, List.append_assoc, List.mem_append] at hev
        rcases hev with hev | hev | hev
        · exact Or.inl (hF ev hev)
        · exact Or.inr (hS ev hev)
        · exact ih chunks2 ((window ++ newPkts).drop acked) (wadd base acked)
            last2 env2
            (fun p hp => hw2 p (List.mem_of_mem_drop hp)) ev
            (by rw [hrl]; exact hev)

/-- With an empty accepted option set the engine never sends an OACK:
the transfer proceeds straight into the DATA loop. -/
theorem try_handle_no_oack (peer retries bs ws : Nat)
    (chunks : List (List Nat)) (env : Env) (fuel : Nat) (opts' : Opts) :
    Event.sent (.oack opts') ∉
      (try_handle peer retries bs ws none chunks env fuel).1 := by
  intro hmem
  simp only [try_handle] at hmem
  rcases rrq_loop_events peer retries bs ws fuel chunks [] 1 false env
      (by intro p hp; cases hp) _ hmem with ⟨b, hb⟩ | ⟨i, pl, hb⟩
  · cases hb
  · cases hb

end ReadReq

end Srv

/-- C4: for every client request and server configuration, the
negotiated OACK option set equals the specified function: in both
engines the client's blksize is dropped under `ignore_client_block_size`
and otherwise accepted as `min(b, block_size_limit)` when the limit is
set and verbatim otherwise, the client's timeout is echoed verbatim
unless `ignore_client_timeout` is set, and a `tsize = 0` on RRQ is
answered with the reader's true size when known and dropped otherwise;
an emitted OACK never holds an option the client did not send; the
result is `none` exactly when every row is empty, and then no OACK is
ever sent and the transfer proceeds with the defaults (block size 512,
the configured timeout, window size 1). -/
theorem oack_negotiation_function :
    (∀ (config : Srv.ServerConfig) (req : Srv.RwReq) (fs : Option Nat),
       Srv.ReadReq.build_oack_opts_core config req fs
         = { block_size := Srv.spec_oack_block_size config req,
             timeout := Srv.spec_oack_timeout config req,
             transfer_size := Srv.spec_oack_tsize_rrq req fs,
             window_size := Srv.spec_oack_window_size config req }) ∧
    (∀ (config : Srv.ServerConfig) (req : Srv.RwReq),
       Srv.WriteReq.build_oack_opts_core config req
         = { block_size := Srv.spec_oack_block_size config req,
             timeout := Srv.spec_oack_timeout config req,
             transfer_size := req.opts.transfer_size,
             window_size := none }) ∧
    (∀ (config : Srv.ServerConfig) (req : Srv.RwReq) (fs : Option Nat)
       (opts : Srv.Opts),
       Srv.ReadReq.build_oack_opts config req fs = some opts →
       (opts.block_size.isSome → req.opts.block_size.isSome)
       ∧ (opts.timeout.isSome → req.opts.timeout.isSome)
       ∧ (opts.transfer_size.isSome → req.opts.transfer_size = some 0)
       ∧ (opts.window_size.isSome → req.opts.window_size.isSome)) ∧
    (∀ (config : Srv.ServerConfig) (req : Srv.RwReq) (fs : Option Nat),
       Srv.ReadReq.build_oack_opts config req fs = none
         ↔ Srv.spec_oack_block_size config req = none
           ∧ Srv.spec_oack_timeout config req = none
           ∧ Srv.spec_oack_tsize_rrq req fs = none
           ∧ Srv.spec_oack_window_size config req = none) ∧
    (∀ (config : Srv.ServerConfig) (req : Srv.RwReq),
       Srv.WriteReq.build_oack_opts config req = none
         ↔ Srv.spec_oack_block_size config req = none
           ∧ Srv.spec_oack_timeout config req = none
           ∧ req.opts.transfer_size = none) ∧
    (Srv.ReadReq.init_block_size none = Srv.DEFAULT_BLOCK_SIZE
      ∧ (∀ config : Srv.ServerConfig,
          Srv.ReadReq.init_timeout none config = config.timeout)
      ∧ Srv.ReadReq.init_window_size none = 1) ∧
    (∀ (peer retries bs ws : Nat) (chunks : List (List Nat))
       (env : Srv.Env) (fuel : Nat) (opts' : Srv.Opts),
       Srv.Event.sent (.oack opts') ∉
         (Srv.ReadReq.try_handle peer retries bs ws none chunks env fuel).1) :=
  ⟨fun config req fs => Srv.ReadReq.build_oack_opts_core_eq config req fs,
   fun config req => Srv.wrq_build_oack_opts_core_eq config req,
   fun config req fs opts h =>
     Srv.ReadReq.build_oack_opts_client_sent config req fs opts h,
   fun config req fs => Srv.ReadReq.build_oack_opts_none_iff config req fs,
   fun config req => Srv.wrq_build_oack_opts_none_iff config req,
   ⟨rfl, fun _ => rfl, rfl⟩,
   fun peer retries bs ws chunks env fuel opts' =>
     Srv.ReadReq.try_handle_no_oack peer retries bs ws chunks env fuel opts'⟩

/-- Witness for C4: with the default configuration a client blksize of
1000 is accepted verbatim, and the resulting OACK holds only options
the client sent. -/
theorem oack_negotiation_function_witness :
    (({ block_size := some 1000 } : Srv.Opts).block_size.isSome →
       ({ block_size := some 1000 } : Srv.Opts).block_size.isSome)
    ∧ (({ block_size := some 1000 } : Srv.Opts).timeout.isSome →
       ({ block_size := some 1000 } : Srv.Opts).timeout.isSome)
    ∧ (({ block_size := some 1000 } : Srv.Opts).transfer_size.isSome →
       ({ block_size := some 1000 } : Srv.Opts).transfer_size = some 0)
    ∧ (({ block_size := some 1000 } : Srv.Opts).window_size.isSome →
       ({ block_size := some 1000 } : Srv.Opts).window_size.isSome) :=
  oack_negotiation_function.2.2.1 {} ⟨[], { block_size := some 1000 }⟩ none
    { block_size := some 1000 } (by decide)

namespace Srv

namespace WriteReq

/-- The scan loop of `WriteRequest::recv_data_block` (src/server/
write_req.rs lines 132-161): within one timeout window, skip datagrams
from other peers and anything that is not a DATA with the expected
block id; a matching DATA yields its payload, truncated to the receive
buffer of `block_size` bytes. -/
def recv_data_scan (peer block_id bs : Nat) :
    List (Nat × Packet) → Option (List Nat)
  | [] => none
  | (addr, p) :: rest =>
    if addr ≠ peer then recv_data_scan peer block_id bs rest
    else
      match p with
      | .data id payload =>
        if id = block_id then some (payload.take bs)
        else recv_data_scan peer block_id bs rest
      | _ => recv_data_scan peer block_id bs rest

/-- The `for _ in 0..=max_retries` loop of `WriteRequest::recv_data`
(lines 109-130): await the expected DATA; on success send ACK for it;
on timeout retransmit the previously sent ACK (or the initial
OACK/ACK(0)) and retry. -/
def recv_data_go (peer bs : Nat) (prevAck : Packet) (block_id : Nat) :
    Nat → Env → List Event × Env × Except Err (List Nat)
  | 0, env => ([], env, .error (.maxRetries peer block_id))
  | tries + 1, env =>
    let (w, env') := popEnv env
    match recv_data_scan peer block_id bs w with
    | some payload => ([.sent (.ack block_id)], env', .ok payload)
    | none =>
      let (evs, env'', r) := recv_data_go peer bs prevAck block_id tries env'
      (.sent prevAck :: evs, env'', r)

/-- `WriteRequest::recv_data`: at most `max_send_retries + 1` attempts,
then `MaxSendRetriesReached`. -/
def recv_data (peer retries bs : Nat) (prevAck : Packet) (block_id : Nat)
    (env : Env) : List Event × Env × Except Err (List Nat) :=
  recv_data_go peer bs prevAck block_id (retries + 1) env

/-- The main `loop` of `WriteRequest::try_handle` (lines 93-104),
parameterised by fuel: receive the next block, write its payload,
terminate exactly when the payload is shorter than the negotiated block
size. -/
def wrq_loop (peer retries bs : Nat) :
    Nat → Packet → Nat → Env → List Event × Except Err Unit
  | 0, _, _, _ => ([], .error .fuel)
  | fuel + 1, prevAck, block_id, env =>
    let id := wadd block_id 1
    let (evR, env', r) := recv_data peer retries bs prevAck id env
    match r with
    | .error e => (evR, .error e)
    | .ok payload =>
      let evs := evR ++ [.wrote payload]
      if payload.length < bs then (evs, .ok ())
      else
        let (evL, r') := wrq_loop peer retries bs fuel (.ack id) id env'
        (evs ++ evL, r')

/-- `WriteRequest::try_handle` (lines 82-107): send OACK when options
were accepted and ACK(0) otherwise, then the DATA receive loop starting
at block id 0. -/
def try_handle (peer retries bs : Nat) (oack_opts : Option Opts)
    (env : Env) (fuel : Nat) : List Event × Except Err Unit :=
  let first : Packet :=
    match oack_opts with
    | some opts => .oack opts
    | none => .ack 0
  let (evs, r) := wrq_loop peer retries bs fuel first 0 env
  (.sent first :: evs, r)

/-- A client that sends each chunk as the DATA for the next expected
block id, one arrival window per block. -/
def wrqArrivals (peer : Nat) : Nat → List (List Nat) → Env
  | _, [] => []
  | b, c :: cs => [(peer, .data b c)] :: wrqArrivals peer (wadd b 1) cs

/-- The expected event trace of a write run: ACK each block, then write
its payload. -/
def wrqTrace (bs : Nat) : Nat → List (List Nat) → List Event
  | _, [] => []
  | b, c :: cs =>
    .sent (.ack b) :: .wrote (c.take bs) :: wrqTrace bs (wadd b 1) cs

end WriteReq

end Srv

namespace Srv

namespace WriteReq

/-- The first outbound datagram of the write engine: the OACK when
options were accepted, ACK(0) otherwise. -/
theorem wrq_try_handle_first (peer retries bs : Nat)
    (oack_opts : Option Opts) (env : Env) (fuel : Nat) :
    ∃ tl r, try_handle peer retries bs oack_opts env fuel
      = (.sent (match oack_opts with
          | some opts => Packet.oack opts
          | none => Packet.ack 0) :: tl, r) := by
  simp only [try_handle]
  rcases hwl : wrq_loop peer retries bs fuel
      (match oack_opts with
        | some opts => Packet.oack opts
        | none => Packet.ack 0) 0 env with ⟨evs, r⟩
  exact ⟨evs, r, by simp only [hwl]⟩

/-- All-timeout behaviour of the receive loop: each of the `t` attempts
retransmits the previously sent ACK once, then the loop fails. -/
theorem recv_data_go_timeout (peer bs : Nat) (prevAck : Packet)
    (id : Nat) : ∀ (t : Nat) (env' : Env),
    recv_data_go peer bs prevAck id t
        (List.replicate t ([] : List (Nat × Packet)) ++ env')
      = (List.replicate t (.sent prevAck), env',
         .error (.maxRetries peer id)) := by
  intro t
  induction t with
  | zero => intro env'; simp [recv_data_go]
  | succ t ih =>
    intro env'
    rw [List.replicate_succ, List.cons_append, recv_data_go]
    simp only [popEnv, recv_data_scan, ih env', List.replicate_succ]

/-- Receipt of the expected DATA within the first window: ACK it and
return the payload. -/
theorem recv_data_ok (peer retries bs : Nat) (prevAck : Packet) (id : Nat)
    (c : List Nat) (env : Env) :
    recv_data peer retries bs prevAck id ([(peer, .data id c)] :: env)
      = ([.sent (.ack id)], env, .ok (c.take bs)) := by
  rw [recv_data, recv_data_go]
  simp [recv_data_scan, popEnv]

/-- A full-length payload does not terminate the loop: its block is
written, acknowledged, and the loop advances to the next block id. -/
theorem wrq_loop_continue (peer retries bs fuel : Nat) (prevAck : Packet)
    (b : Nat) (c : List Nat) (env : Env)
    (hfull : ¬ (c.take bs).length < bs) :
    wrq_loop peer retries bs (fuel + 1) prevAck b
        ([(peer, .data (wadd b 1) c)] :: env)
      = (.sent (.ack (wadd b 1)) :: .wrote (c.take bs)
            :: (wrq_loop peer retries bs fuel (.ack (wadd b 1)) (wadd b 1)
                env).1,
         (wrq_loop peer retries bs fuel (.ack (wadd b 1)) (wadd b 1)
            env).2) := by
  rw [wrq_loop]
  rw [recv_data_ok peer retries bs prevAck (wadd b 1) c env]
  simp only [if_neg hfull]
  rcases hwl : wrq_loop peer retries bs fuel (.ack (wadd b 1)) (wadd b 1) env
    with ⟨evL, r⟩
  simp [hwl]

/-- Full run of the write loop against a client sending every full
block followed by one short block: each block is acknowledged and
written in order, and the loop terminates successfully after the short
one. -/
theorem wrq_loop_run (peer retries bs : Nat) :
    ∀ (fuel : Nat) (full : List (List Nat)) (lastc : List Nat) (b : Nat)
      (prevAck : Packet) (env' : Env),
      (∀ c ∈ full, c.length = bs) → lastc.length < bs →
      full.length + 1 ≤ fuel →
      wrq_loop peer retries bs fuel prevAck b
          (wrqArrivals peer (wadd b 1) (full ++ [lastc]) ++ env')
        = (wrqTrace bs (wadd b 1) (full ++ [lastc]), .ok ()) := by
  intro fuel
  induction fuel with
  | zero =>
    intro full lastc b prevAck env' _ _ hlen
    omega
  | succ fuel ih =>
    intro full lastc b prevAck env' hfull hlast hlen
    cases full with
    | nil =>
      rw [List.nil_append, wrq_loop]
      rw [show wrqArrivals peer (wadd b 1) [lastc]
          = [[(peer, .data (wadd b 1) lastc)]] from rfl]
      rw [List.cons_append, List.nil_append,
        recv_data_ok peer retries bs prevAck (wadd b 1) lastc env']
      simp only []
      rw [if_pos (by rw [List.length_take]; omega)]
      simp [wrqTrace]
    | cons c cs =>
      have hc : c.length = bs := hfull c (List.mem_cons_self c cs)
      rw [List.cons_append, wrq_loop]
      rw [show wrqArrivals peer (wadd b 1) (c :: (cs ++ [lastc]))
          = [(peer, .data (wadd b 1) c)]
            :: wrqArrivals peer (wadd (wadd b 1) 1) (cs ++ [lastc])
          from rfl]
      rw [List.cons_append,
        recv_data_ok peer retries bs prevAck (wadd b 1) c
          (wrqArrivals peer (wadd (wadd b 1) 1) (cs ++ [lastc]) ++ env')]
      simp only []
      rw [if_neg (by rw [List.length_take]; omega)]
      have hih := ih cs lastc (wadd b 1) (.ack (wadd b 1)) env'
        (fun c2 hc2 => hfull c2 (List.mem_cons_of_mem c hc2)) hlast
        (by simp at hlen ⊢; omega)
      rw [hih]
      simp [wrqTrace]

/-- All-timeout behaviour lifted to the session: after the initial
ACK(0) the engine retransmits it once per timeout, `retries + 1` times,
then the session fails with `MaxSendRetriesReached` for block 1. -/
theorem wrq_try_handle_timeout (peer retries bs fuel : Nat) (env' : Env) :
    try_handle peer retries bs none
        (List.replicate (retries + 1) ([] : List (Nat × Packet)) ++ env')
        (fuel + 1)
      = (.sent (.ack 0)
            :: List.replicate (retries + 1) (.sent (.ack 0)),
         .error (.maxRetries peer 1)) := by
  simp only [try_handle]
  rw [wrq_loop]
  rw [show recv_data peer retries bs (.ack 0) (wadd 0 1)
        (List.replicate (retries + 1) ([] : List (Nat × Packet)) ++ env')
      = (List.replicate (retries + 1) (.sent (.ack 0)), env',
         .error (.maxRetries peer (wadd 0 1)))
    from recv_data_go_timeout peer bs (.ack 0) (wadd 0 1) (retries + 1) env']
  simp only []
  rw [show wadd 0 1 = 1 from rfl]

end WriteReq

end Srv

/-- C8: in the write-request engine the first outbound datagram is the
OACK when any option was accepted and ACK(0) otherwise; on each timeout
while awaiting DATA block n the previously sent ACK (or the initial
OACK/ACK(0)) is retransmitted, counted against the same
`max_send_retries + 1` attempt cap as the read engine, after which the
session fails with `MaxSendRetriesReached`; on receipt of DATA with the
expected block id the payload is written to the sink and ACK(n) is
sent; and the session terminates successfully exactly when the received
payload is shorter than the negotiated block size. -/
theorem write_engine_behaviour :
    (∀ (peer retries bs : Nat) (oack_opts : Option Srv.Opts)
       (env : Srv.Env) (fuel : Nat),
       ∃ tl r, Srv.WriteReq.try_handle peer retries bs oack_opts env fuel
         = (.sent (match oack_opts with
             | some opts => Srv.Packet.oack opts
             | none => Srv.Packet.ack 0) :: tl, r)) ∧
    (∀ (peer retries bs : Nat) (prevAck : Srv.Packet) (id : Nat)
       (env' : Srv.Env),
       Srv.WriteReq.recv_data peer retries bs prevAck id
           (List.replicate (retries + 1) ([] : List (Nat × Srv.Packet))
             ++ env')
         = (List.replicate (retries + 1) (.sent prevAck), env',
            .error (.maxRetries peer id))) ∧
    (∀ (peer retries bs fuel : Nat) (env' : Srv.Env),
       Srv.WriteReq.try_handle peer retries bs none
           (List.replicate (retries + 1) ([] : List (Nat × Srv.Packet))
             ++ env')
           (fuel + 1)
         = (.sent (.ack 0)
               :: List.replicate (retries + 1) (.sent (.ack 0)),
            .error (.maxRetries peer 1))) ∧
    (∀ (peer retries bs : Nat) (prevAck : Srv.Packet) (id : Nat)
       (c : List Nat) (env : Srv.Env),
       Srv.WriteReq.recv_data peer retries bs prevAck id
           ([(peer, .data id c)] :: env)
         = ([.sent (.ack id)], env, .ok (c.take bs))) ∧
    (∀ (peer retries bs fuel : Nat) (prevAck : Srv.Packet) (b : Nat)
       (c : List Nat) (env : Srv.Env),
       ¬ (c.take bs).length < bs →
       Srv.WriteReq.wrq_loop peer retries bs (fuel + 1) prevAck b
           ([(peer, .data (Srv.wadd b 1) c)] :: env)
         = (.sent (.ack (Srv.wadd b 1)) :: .wrote (c.take bs)
               :: (Srv.WriteReq.wrq_loop peer retries bs fuel
                    (.ack (Srv.wadd b 1)) (Srv.wadd b 1) env).1,
            (Srv.WriteReq.wrq_loop peer retries bs fuel
               (.ack (Srv.wadd b 1)) (Srv.wadd b 1) env).2)) ∧
    (∀ (peer retries bs fuel : Nat) (full : List (List Nat))
       (lastc : List Nat) (b : Nat) (prevAck : Srv.Packet)
       (env' : Srv.Env),
       (∀ c ∈ full, c.length = bs) → lastc.length < bs →
       full.length + 1 ≤ fuel →
       Srv.WriteReq.wrq_loop peer retries bs fuel prevAck b
           (Srv.WriteReq.wrqArrivals peer (Srv.wadd b 1) (full ++ [lastc])
             ++ env')
         = (Srv.WriteReq.wrqTrace bs (Srv.wadd b 1) (full ++ [lastc]),
            .ok ())) :=
  ⟨fun peer retries bs oack_opts env fuel =>
     Srv.WriteReq.wrq_try_handle_first peer retries bs oack_opts env fuel,
   fun peer retries bs prevAck id env' =>
     Srv.WriteReq.recv_data_go_timeout peer bs prevAck id (retries + 1) env',
   fun peer retries bs fuel env' =>
     Srv.WriteReq.wrq_try_handle_timeout peer retries bs fuel env',
   fun peer retries bs prevAck id c env =>
     Srv.WriteReq.recv_data_ok peer retries bs prevAck id c env,
   fun peer retries bs fuel prevAck b c env h =>
     Srv.WriteReq.wrq_loop_continue peer retries bs fuel prevAck b c env h,
   fun peer retries bs fuel full lastc b prevAck env' h1 h2 h3 =>
     Srv.WriteReq.wrq_loop_run peer retries bs fuel full lastc b prevAck
       env' h1 h2 h3⟩

/-- Witness for C8: a client writing blocks [1,2] then [3] at block
size 2 is acknowledged block by block, each payload is written, and the
session ends successfully after the short block. -/
theorem write_engine_behaviour_witness :
    Srv.WriteReq.wrq_loop 7 1 2 2 (.ack 0) 0
        (Srv.WriteReq.wrqArrivals 7 (Srv.wadd 0 1) ([[1, 2]] ++ [[3]])
          ++ [])
      = (Srv.WriteReq.wrqTrace 2 (Srv.wadd 0 1) ([[1, 2]] ++ [[3]]),
         .ok ()) :=
  write_engine_behaviour.2.2.2.2.2 7 1 2 2 [[1, 2]] [3] 0 (.ack 0) []
    (by decide) (by decide) (by decide)

namespace Dispatch

/-- Dispatcher state: `reqs_in_progress` of src/server/server.rs line
28, together with a ghost multiset of the peers of spawned-but-
unfinished session tasks. -/
structure State where
  reqs_in_progress : Finset Nat
  sessions : Multiset Nat

/-- Externally driven events of the `serve` loop (src/server/server.rs
lines 65-108): a datagram arriving on the request socket
(`FutResults::RecvReq`), or a session task completing
(`FutResults::ReqFinished`, successfully or with an error). -/
inductive Event
  | recv (peer : Nat) (data : List Nat)
  | finished (peer : Nat) (ok : Bool)

/-- Observable dispatcher outputs: spawning a session handler task, or
the best-effort ERROR datagram sent for a failed session. -/
inductive Action
  | spawned_read (peer : Nat) (req : RwReq)
  | spawned_write (peer : Nat) (req : RwReq)
  | sent_error (peer : Nat)
deriving DecidableEq, Repr

/-- `TftpServer::handle_req_packet` (src/server/server.rs lines
110-135): decode with the packet codec, keep only RRQ and WRQ, drop a
peer already in progress, and otherwise record the peer and spawn the
matching handler. -/
def handle_req_packet (s : State) (peer : Nat) (data : List Nat) :
    State × List Action :=
  match parse_packet data with
  | none => (s, [])
  | some pkt =>
    match pkt with
    | .rrq req =>
      if peer ∈ s.reqs_in_progress then (s, [])
      else ({ reqs_in_progress := insert peer s.reqs_in_progress,
              sessions := peer ::ₘ s.sessions },
            [.spawned_read peer req])
    | .wrq req =>
      if peer ∈ s.reqs_in_progress then (s, [])
      else ({ reqs_in_progress := insert peer s.reqs_in_progress,
              sessions := peer ::ₘ s.sessions },
            [.spawned_write peer req])
    | _ => (s, [])

/-- One iteration of the `serve` loop (lines 75-104): a request
datagram goes through `handle_req_packet`; a completed task's peer is
removed from the active set whether it succeeded or failed, and a
failure additionally triggers one best-effort ERROR datagram. -/
def step (s : State) : Event → State × List Action
  | .recv peer data => handle_req_packet s peer data
  | .finished peer ok =>
    ({ reqs_in_progress := s.reqs_in_progress.erase peer,
       sessions := s.sessions.erase peer },
     if ok then [] else [.sent_error peer])

/-- A completion event is only deliverable for a task that was spawned
and has not yet finished. -/
def ValidEvent (s : State) : Event → Prop
  | .recv _ _ => True
  | .finished peer _ => peer ∈ s.sessions

/-- States reachable from the initial empty dispatcher. -/
inductive Reachable : State → Prop
  | init : Reachable ⟨∅, 0⟩
  | next (s : State) (e : Event) (hs : Reachable s)
      (hv : ValidEvent s e) : Reachable (Dispatch.step s e).1

/-- `handle_req_packet` either leaves the state unchanged with no
output, or (for a fresh RRQ/WRQ peer) records the peer and spawns one
handler. -/
theorem handle_req_packet_shape (s : State) (peer : Nat)
    (data : List Nat) :
    handle_req_packet s peer data = (s, [])
    ∨ (peer ∉ s.reqs_in_progress ∧ ∃ a,
        handle_req_packet s peer data
          = ({ reqs_in_progress := insert peer s.reqs_in_progress,
               sessions := peer ::ₘ s.sessions }, [a])) := by
  rw [handle_req_packet]
  cases parse_packet data with
  | none => exact Or.inl rfl
  | some pkt =>
    cases pkt with
    | rrq req =>
      by_cases hin : peer ∈ s.reqs_in_progress
      · exact Or.inl (by simp only [if_pos hin])
      · exact Or.inr ⟨hin, Action.spawned_read peer req,
          by simp only [if_neg hin]⟩
    | wrq req =>
      by_cases hin : peer ∈ s.reqs_in_progress
      · exact Or.inl (by simp only [if_pos hin])
      · exact Or.inr ⟨hin, Action.spawned_write peer req,
          by simp only [if_neg hin]⟩
    | data b pl => exact Or.inl rfl
    | ack b => exact Or.inl rfl
    | error c m => exact Or.inl rfl
    | oack o => exact Or.inl rfl

/-- Invariant: the ghost session multiset has no duplicates and every
active session's peer is in `reqs_in_progress`. -/
theorem reachable_inv (s : State) (h : Reachable s) :
    s.sessions.Nodup ∧ ∀ p ∈ s.sessions, p ∈ s.reqs_in_progress := by
  induction h with
  | init =>
    refine ⟨Multiset.nodup_zero, ?_⟩
    intro p hp
    simp at hp
  | next s e hs hv ih =>
    obtain ⟨ihn, ihm⟩ := ih
    cases e with
    | recv peer data =>
      have hstep : Dispatch.step s (.recv peer data)
          = handle_req_packet s peer data := rfl
      rw [hstep]
      rcases handle_req_packet_shape s peer data with heq | ⟨hin, a, heq⟩
      · rw [heq]
        exact ⟨ihn, ihm⟩
      · rw [heq]
        refine ⟨?_, ?_⟩
        · show (peer ::ₘ s.sessions).Nodup
          rw [Multiset.nodup_cons]
          exact ⟨fun hmem => hin (ihm peer hmem), ihn⟩
        · intro p hp2
          have hp3 : p ∈ peer ::ₘ s.sessions := hp2
          rw [Multiset.mem_cons] at hp3
          show p ∈ insert peer s.reqs_in_progress
          rcases hp3 with rfl | hp3
          · exact Finset.mem_insert_self p _
          · exact Finset.mem_insert_of_mem (ihm p hp3)
    | finished peer ok =>
      have hstep : (Dispatch.step s (.finished peer ok)).1
          = { reqs_in_progress := s.reqs_in_progress.erase peer,
              sessions := s.sessions.erase peer } := rfl
      rw [hstep]
      refine ⟨ihn.erase peer, ?_⟩
      intro p hp2
      have hps : p ∈ s.sessions := Multiset.mem_of_mem_erase hp2
      rw [Finset.mem_erase]
      refine ⟨?_, ihm p hps⟩
      intro hpe
      subst hpe
      exact (Multiset.Nodup.not_mem_erase ihn) hp2

end Dispatch

namespace Dispatch

/-- At-most-one active session per peer at every reachable state. -/
theorem reachable_count_le_one (s : State) (h : Reachable s) (p : Nat) :
    s.sessions.count p ≤ 1 :=
  Multiset.nodup_iff_count_le_one.mp (reachable_inv s h).1 p

/-- A datagram from a peer already in progress is dropped silently:
no state change, no handler spawned, no reply. -/
theorem handle_req_packet_dup_drop (s : State) (peer : Nat)
    (data : List Nat) (hin : peer ∈ s.reqs_in_progress) :
    handle_req_packet s peer data = (s, []) := by
  rw [handle_req_packet]
  cases parse_packet data with
  | none => rfl
  | some pkt =>
    cases pkt with
    | rrq req => simp only [if_pos hin]
    | wrq req => simp only [if_pos hin]
    | data b pl => rfl
    | ack b => rfl
    | error c m => rfl
    | oack o => rfl

/-- A fresh RRQ records the peer and spawns the read handler. -/
theorem handle_req_packet_rrq (s : State) (peer : Nat) (data : List Nat)
    (req : RwReq) (hp : parse_packet data = some (.rrq req))
    (hin : peer ∉ s.reqs_in_progress) :
    handle_req_packet s peer data
      = ({ reqs_in_progress := insert peer s.reqs_in_progress,
           sessions := peer ::ₘ s.sessions },
         [.spawned_read peer req]) := by
  rw [handle_req_packet, hp]
  simp only [if_neg hin]

/-- A fresh WRQ records the peer and spawns the write handler. -/
theorem handle_req_packet_wrq (s : State) (peer : Nat) (data : List Nat)
    (req : RwReq) (hp : parse_packet data = some (.wrq req))
    (hin : peer ∉ s.reqs_in_progress) :
    handle_req_packet s peer data
      = ({ reqs_in_progress := insert peer s.reqs_in_progress,
           sessions := peer ::ₘ s.sessions },
         [.spawned_write peer req]) := by
  rw [handle_req_packet, hp]
  simp only [if_neg hin]

/-- Task completion removes the peer from the active set whether it
succeeded or failed; a failure additionally sends one ERROR. -/
theorem step_finished (s : State) (peer : Nat) (ok : Bool) :
    Dispatch.step s (.finished peer ok)
      = ({ reqs_in_progress := s.reqs_in_progress.erase peer,
           sessions := s.sessions.erase peer },
         if ok then [] else [.sent_error peer]) := rfl

/-- Receiving a datagram never removes a peer from the active set:
removal happens exactly at task completion. -/
theorem step_recv_preserves (s : State) (peer : Nat) (data : List Nat)
    (q : Nat) (hq : q ∈ s.reqs_in_progress) :
    q ∈ (Dispatch.step s (.recv peer data)).1.reqs_in_progress := by
  have hstep : Dispatch.step s (.recv peer data)
      = handle_req_packet s peer data := rfl
  rw [hstep]
  rcases handle_req_packet_shape s peer data with heq | ⟨hin, a, heq⟩
  · rw [heq]
    exact hq
  · rw [heq]
    exact Finset.mem_insert_of_mem hq

end Dispatch

/-- C3: at every reachable state of the dispatcher each peer address
has at most one active session; an RRQ or WRQ arriving from a peer
already in the active set is dropped silently (state unchanged, no
handler spawned, no reply), while a fresh one records the peer and
spawns exactly one handler; and the peer is removed from the active set
exactly when its session task completes — at completion whether it
succeeded or failed (a failure additionally triggers one best-effort
ERROR datagram), and never on receipt of a datagram. -/
theorem dispatcher_at_most_one_session :
    (∀ (s : Dispatch.State), Dispatch.Reachable s →
       ∀ p, s.sessions.count p ≤ 1) ∧
    (∀ (s : Dispatch.State) (peer : Nat) (data : List Nat),
       peer ∈ s.reqs_in_progress →
       Dispatch.handle_req_packet s peer data = (s, [])) ∧
    (∀ (s : Dispatch.State) (peer : Nat) (data : List Nat) (req : RwReq),
       parse_packet data = some (.rrq req) →
       peer ∉ s.reqs_in_progress →
       Dispatch.handle_req_packet s peer data
         = ({ reqs_in_progress := insert peer s.reqs_in_progress,
              sessions := peer ::ₘ s.sessions },
            [.spawned_read peer req])) ∧
    (∀ (s : Dispatch.State) (peer : Nat) (data : List Nat) (req : RwReq),
       parse_packet data = some (.wrq req) →
       peer ∉ s.reqs_in_progress →
       Dispatch.handle_req_packet s peer data
         = ({ reqs_in_progress := insert peer s.reqs_in_progress,
              sessions := peer ::ₘ s.sessions },
            [.spawned_write peer req])) ∧
    (∀ (s : Dispatch.State) (peer : Nat) (ok : Bool),
       Dispatch.step s (.finished peer ok)
         = ({ reqs_in_progress := s.reqs_in_progress.erase peer,
              sessions := s.sessions.erase peer },
            if ok then [] else [.sent_error peer])) ∧
    (∀ (s : Dispatch.State) (peer : Nat) (data : List Nat) (q : Nat),
       q ∈ s.reqs_in_progress →
       q ∈ (Dispatch.step s (.recv peer data)).1.reqs_in_progress) :=
  ⟨fun s h p => Dispatch.reachable_count_le_one s h p,
   fun s peer data hin =>
     Dispatch.handle_req_packet_dup_drop s peer data hin,
   fun s peer data req hp hin =>
     Dispatch.handle_req_packet_rrq s peer data req hp hin,
   fun s peer data req hp hin =>
     Dispatch.handle_req_packet_wrq s peer data req hp hin,
   fun s peer ok => Dispatch.step_finished s peer ok,
   fun s peer data q hq =>
     Dispatch.step_recv_preserves s peer data q hq⟩

/-- Witness for C3 at the initial dispatcher state: no peer has an
active session. -/
theorem dispatcher_at_most_one_session_witness :
    (Dispatch.State.mk ∅ 0).sessions.count 5 ≤ 1 :=
  dispatcher_at_most_one_session.1 ⟨∅, 0⟩ Dispatch.Reachable.init 5
